import Mathlib

/-!
# Verification of the yippee layered install pipeline

A shallow embedding of the dependency-resolution / layered-install core of
the yippee AUR helper (`pkg/sync/build`, `pkg/sync/workdir`, `pkg/sync/sync.go`),
together with theorems settling the specification claims.

The data model (`InstallInfo`, layers, build-directory map) follows
`pkg/dep.InstallInfo` as used by `pkg/sync/sync.go` and the installer tests.
The installer itself (`pkg/sync/build/installer.go`) and the fanout source
downloader (`pkg/sync/workdir/aur_source.go`) are modelled from the
specification, constrained by the exact command traces that the repository's
own tests (`installer_test.go`, `aur_source_test.go`) require; each such
definition carries a doc comment saying so.

External collaborators (command executor, package database) are abstracted
into an `Env` of oracles, and every external-tool invocation is recorded in
an ordered trace of `Cmd` values, mirroring the `MockRunner.ShowCalls` /
`CaptureCalls` lists the tests assert on.
-/

namespace Yippee

/-- `dep.Source`: where a package comes from (`dep.AUR` is the zero value,
matching the test fixture that omits the field). -/
inductive Source where
  | aur
  | sync
  | missing
deriving DecidableEq, Repr

/-- `dep.Reason`: why a package is being installed (`dep.Explicit`,
`dep.Dep`, `dep.MakeDep`, `dep.CheckDep`). -/
inductive Reason where
  | explicit
  | dep
  | makeDep
  | checkDep
deriving DecidableEq, Repr

/-- `parser.TargetMode` (`ModeAny`, `ModeRepo`, `ModeAUR`). -/
inductive TargetMode where
  | any
  | repo
  | aurOnly
deriving DecidableEq, Repr

/-- `dep.InstallInfo`: the per-package install descriptor (spec §3). -/
structure InstallInfo where
  source : Source
  reason : Reason
  version : String := ""
  isGroup : Bool := false
  srcinfoPath : Option String := none
  aurBase : Option String := none
  syncDBName : Option String := none
deriving DecidableEq, Repr

/-- A layer: map from package name to `InstallInfo`, as an association list
(`map[string]*dep.InstallInfo` in the source, with unique keys). -/
abbrev Layer := List (String × InstallInfo)

/-- Errors produced by the pipeline, structured so that theorems can talk
about which names an error carries. -/
inductive Err where
  | repoInstall (targets : List String)
  | aurInstall (archives : List String)
  | compileFailed (pkgs : List String)
  | download (dir : String)
  | hook (name : String)
  | multi (errs : List Err)

/-- One external-tool invocation, as observed by the command executor.
`makepkgShow` / `makepkgCapture` mirror `Runner.Show` / `Runner.Capture`
on a makepkg command built for directory `dir` with extra args `args`;
the pacman constructors carry the forwarded invocation args and the
target list after the `--` separator. -/
inductive Cmd where
  | makepkgShow (dir : String) (args : List String)
  | makepkgCapture (dir : String) (args : List String)
  | pacmanS (extraArgs : List String) (targets : List String)
  | pacmanU (extraArgs : List String) (archives : List String)
  | pacmanD (asdeps : Bool) (targets : List String)
deriving DecidableEq, Repr

/-- Installer configuration held by `build.Installer`
(`NewInstaller(db, cmdBuilder, vcsStore, targetMode, rebuildMode, downloadOnly, logger)`;
`keepSrc` lives on the command builder). -/
structure Config where
  mode : TargetMode
  rebuild : Bool
  downloadOnly : Bool
  keepSrc : Bool := false
deriving DecidableEq, Repr

/-- The external world: package database answers, makepkg `--packagelist`
output, and which external invocations fail.  `reasonMatches n asdeps`
reports whether package `n`'s currently recorded install reason already
matches the desired one (`asdeps = true` for dependency). -/
structure Env where
  isInstalled : String → String → Bool
  archiveOf : String → String
  baseArchives : String → List String
  buildFails : String → Bool
  syncFails : List String → Bool
  upgradeFails : List String → Bool
  reasonMatches : String → Bool → Bool
  sourceFails : String → Bool

/-- Invocation arguments (`parser.Arguments`): the flag words forwarded to
pacman (e.g. `"needed"`, `"u"`, `"upgrades"`). -/
structure Args where
  args : List String := []
deriving DecidableEq, Repr

/-! ## makepkg argument vectors

Flag sets as pinned by the installer tests: the metadata-refresh
(pkgver bump) call, the full build, and the no-build call used when the
build is skipped or only sources are wanted.  `keepSrc` removes the clean
flags (`-C`, `-c`) from all of them (`TestInstaller_KeepSrc`). -/

def refreshArgs (keepSrc : Bool) : List String :=
  ["--nobuild", "-f"] ++ (if keepSrc then [] else ["-C"]) ++ ["--ignorearch"]

def fullBuildArgs (keepSrc : Bool) : List String :=
  ["-f"] ++ (if keepSrc then [] else ["-c"]) ++
    ["--noconfirm", "--noextract", "--noprepare", "--holdver", "--ignorearch"]

def noBuildArgs (keepSrc : Bool) : List String :=
  (if keepSrc then [] else ["-c"]) ++ ["--nobuild", "--noextract", "--ignorearch"]

/-- A full (package-producing) build invocation: a streamed makepkg call
without `--nobuild`. -/
def isFullBuild : Cmd → Bool
  | .makepkgShow _ args => ¬ args.contains "--nobuild"
  | _ => false

/-- Any build-tool (makepkg) invocation. -/
def isMakepkg : Cmd → Bool
  | .makepkgShow _ _ => true
  | .makepkgCapture _ _ => true
  | _ => false

/-- A package-manager install transaction (`pacman -S` or `pacman -U`). -/
def isInstallCmd : Cmd → Bool
  | .pacmanS _ _ => true
  | .pacmanU _ _ => true
  | _ => false

/-- The target list of a package-manager install transaction. -/
def installTargets : Cmd → List String
  | .pacmanS _ ts => ts
  | .pacmanU _ as => as
  | _ => []

/-- Whether the environment makes a given install transaction fail. -/
def cmdFails (env : Env) : Cmd → Bool
  | .pacmanS _ ts => env.syncFails ts
  | .pacmanU _ as => env.upgradeFails as
  | _ => false

/-! ## Layer bookkeeping -/

/-- Binary-repo entries of a layer. -/
def syncPkgsOf (layer : Layer) : Layer :=
  layer.filter (fun p => p.2.source = Source.sync)

/-- Source-build entries of a layer. -/
def aurPkgsOf (layer : Layer) : Layer :=
  layer.filter (fun p => p.2.source = Source.aur)

/-- The repo package name qualified by its sync DB when present
(`core/linux`), as passed to `pacman -S`. -/
def qualifiedName (name : String) (info : InstallInfo) : String :=
  match info.syncDBName with
  | some db => db ++ "/" ++ name
  | none => name

/-- Distinct `AURBase` values of a layer's source-build entries, in first
occurrence order. -/
def basesOf (layer : Layer) : List String :=
  ((aurPkgsOf layer).filterMap (fun p => p.2.aurBase)).dedup

/-- The layer's source-build entries sharing base `b`. -/
def pkgsOfBase (layer : Layer) (b : String) : Layer :=
  (aurPkgsOf layer).filter (fun p => p.2.aurBase = some b)

/-- `archiveOf n` is package `n`'s entry in the `--packagelist` output of
its base, and `baseArchives b` is the whole output for base `b` (a split
base lists one archive per output package). -/
def Env.coherent (env : Env) (layer : Layer) : Prop :=
  ∀ p ∈ aurPkgsOf layer, ∀ b, p.2.aurBase = some b →
    env.archiveOf p.1 ∈ env.baseArchives b

/-- Insert a name if not already present (models `map[string]error` keying:
a package name is recorded at most once). -/
def insertIfNew (l : List String) (n : String) : List String :=
  if n ∈ l then l else l ++ [n]

def insertAllNew (l : List String) (ns : List String) : List String :=
  ns.foldl insertIfNew l

/-- Aggregate a list of errors (`multierror.MultiError.Return`): `none`
when empty, otherwise one combined error holding every collected error. -/
def multiOf : List Err → Option Err
  | [] => none
  | es => some (.multi es)

/-! ## Build driver

Modelled from the spec: `pkg/sync/build/installer.go` is not part of the
source tree (only `installer_test.go` is); the staged build-tool protocol
below follows spec §4.2 and the invocation sequences required by
`TestInstaller_InstallNeeded`, `TestInstaller_InstallRebuild`,
`TestInstaller_InstallDownloadOnly` and `TestInstaller_KeepSrc`:
metadata refresh (`--nobuild -f -C`), archive-list capture
(`--packagelist`), then either the full build or — when rebuild is not
forced and the archives are already present on disk, or the `needed`
argument was given and every package of the base is already installed at
its target version, or in download-only mode — a no-build invocation. -/

/-- Build one base.  `built` is the set of archive paths currently on
disk; returns the emitted commands, the updated disk state, and whether
the base counts as successfully built. -/
def buildOne (cfg : Config) (env : Env) (args : Args) (built : List String)
    (dir : String) (b : String) (bpkgs : Layer) : List Cmd × List String × Bool :=
  let dests := env.baseArchives b
  let refresh := Cmd.makepkgShow dir (refreshArgs cfg.keepSrc)
  let capture := Cmd.makepkgCapture dir ["--packagelist"]
  let skip := ¬ cfg.rebuild ∧
    (dests.all (· ∈ built) ∨
      (args.args.contains "needed" ∧
        bpkgs.all (fun p => env.isInstalled p.1 p.2.version)))
  if cfg.downloadOnly ∨ skip then
    ([refresh, capture, Cmd.makepkgShow dir (noBuildArgs cfg.keepSrc)], built, true)
  else if env.buildFails b then
    ([refresh, capture, Cmd.makepkgShow dir (fullBuildArgs cfg.keepSrc)], built, false)
  else
    ([refresh, capture, Cmd.makepkgShow dir (fullBuildArgs cfg.keepSrc)],
      built ++ dests, true)

/-- Look up the build directory for a base in the build-directory map. -/
def dirOf (dirs : List (String × String)) (b : String) : String :=
  match dirs.find? (fun p => p.1 = b) with
  | some p => p.2
  | none => ""

/-- Build every base of a layer in order.  Returns the emitted commands,
the updated disk state, the names of the packages whose base failed to
build, and the layer entries whose base built successfully. -/
def buildAll (cfg : Config) (env : Env) (args : Args)
    (dirs : List (String × String)) (layer : Layer) :
    List String → List String → List Cmd × List String × List String × Layer
  | built, [] => ([], built, [], [])
  | built, b :: bs =>
    let bpkgs := pkgsOfBase layer b
    let r := buildOne cfg env args built (dirOf dirs b) b bpkgs
    let rest := buildAll cfg env args dirs layer r.2.1 bs
    if r.2.2 then (r.1 ++ rest.1, rest.2.1, rest.2.2.1, bpkgs ++ rest.2.2.2)
    else (r.1 ++ rest.1, rest.2.1, bpkgs.map (fun p => p.1) ++ rest.2.2.1, rest.2.2.2)

/-! ## Layered installer

Modelled from the spec: `pkg/sync/build/installer.go` is absent from the
source tree.  The per-layer protocol follows spec §4.1 as constrained by
the command traces `installer_test.go` requires: binary-repo packages of
the layer are installed by one `pacman -S` transaction (names qualified
by their sync DB), source-build bases are then built and the resulting
archives installed by one `pacman -U` transaction; each transaction is
followed by install-reason updates (`pacman -D -q --asdeps` or
`--asexplicit`) for the packages whose recorded reason does not already
match, skipping group entries.  Build failures are recorded per package
name (`failedAndIgnored`, `map[string]error`) and do not abort the run;
a failed install transaction aborts the whole `Install` call.  In
download-only mode the `pacman -U` step and all reason updates are
skipped (`TestInstaller_InstallDownloadOnly`, `TestInstaller_InstallGroup`). -/

/-- Reason-update invocations after a successful install transaction:
one `pacman -D -q --asdeps` listing the dependency-reason packages and
one `pacman -D -q --asexplicit` listing the explicit ones, each omitted
when its list is empty; packages whose recorded reason already matches
are skipped (spec §4.1 step 6). -/
def setReasonCmds (env : Env) (deps exps : List String) : List Cmd :=
  let d := deps.filter (fun n => ¬ env.reasonMatches n true)
  let e := exps.filter (fun n => ¬ env.reasonMatches n false)
  (if d.isEmpty then [] else [Cmd.pacmanD true d]) ++
    (if e.isEmpty then [] else [Cmd.pacmanD false e])

/-- Non-group names of `pkgs` whose reason classifies as a dependency
(`Dep`, `MakeDep`, `CheckDep`). -/
def depNames (pkgs : Layer) : List String :=
  (pkgs.filter (fun p => p.2.reason ≠ Reason.explicit ∧ ¬ p.2.isGroup)).map (fun p => p.1)

/-- Non-group names of `pkgs` with explicit reason. -/
def expNames (pkgs : Layer) : List String :=
  (pkgs.filter (fun p => p.2.reason = Reason.explicit ∧ ¬ p.2.isGroup)).map (fun p => p.1)

/-- Arguments forwarded onto a pacman invocation: the original invocation
args (in AUR-only target mode with `u`/`upgrades` removed, for the repo
transaction) plus `--noconfirm` when manual confirmation is not required. -/
def syncExtraArgs (cfg : Config) (args : Args) (manualConfirm : Bool) : List String :=
  (if cfg.mode = TargetMode.aurOnly then
    args.args.filter (fun a => a ≠ "u" ∧ a ≠ "upgrades")
  else args.args) ++ (if manualConfirm then [] else ["--noconfirm"])

def upgradeExtraArgs (args : Args) (manualConfirm : Bool) : List String :=
  args.args ++ (if manualConfirm then [] else ["--noconfirm"])

/-- The repo half of a layer: one `pacman -S` transaction over the
layer's sync-qualified binary-repo names, then reason updates unless in
download-only mode. -/
def syncPart (cfg : Config) (env : Env) (args : Args) (manualConfirm : Bool)
    (layer : Layer) : List Cmd × Option Err :=
  let sp := syncPkgsOf layer
  if sp.isEmpty then ([], none)
  else
    let targets := sp.map (fun p => qualifiedName p.1 p.2)
    let sCmd := Cmd.pacmanS (syncExtraArgs cfg args manualConfirm) targets
    if env.syncFails targets then ([sCmd], some (.repoInstall targets))
    else if cfg.downloadOnly then ([sCmd], none)
    else (sCmd :: setReasonCmds env (depNames sp) (expNames sp), none)

/-- Entries of the successfully built packages that are actually passed to
`pacman -U`: with the `needed` argument, packages already installed at
their target version are dropped. -/
def includedPkgs (env : Env) (args : Args) (succ : Layer) : Layer :=
  succ.filter (fun p =>
    ¬ (args.args.contains "needed" ∧ env.isInstalled p.1 p.2.version))

/-- The source-build half of a layer: build every base, then (unless in
download-only mode) one `pacman -U` transaction over the resolved archive
paths and reason updates.  Returns commands, disk state, failed package
names, and the layer error. -/
def aurPart (cfg : Config) (env : Env) (args : Args) (manualConfirm : Bool)
    (dirs : List (String × String)) (built : List String) (layer : Layer) :
    List Cmd × List String × List String × Option Err :=
  let r := buildAll cfg env args dirs layer built (basesOf layer)
  if cfg.downloadOnly then (r.1, r.2.1, r.2.2.1, none)
  else
    let inc := includedPkgs env args r.2.2.2
    if inc.isEmpty then (r.1, r.2.1, r.2.2.1, none)
    else
      let archives := inc.map (fun p => env.archiveOf p.1)
      let uCmd := Cmd.pacmanU (upgradeExtraArgs args manualConfirm) archives
      if env.upgradeFails archives then
        (r.1 ++ [uCmd], r.2.1, r.2.2.1, some (.aurInstall archives))
      else
        (r.1 ++ uCmd :: setReasonCmds env (depNames inc) (expNames inc),
          r.2.1, r.2.2.1, none)

/-- Process one layer: repo transaction first, then source builds and the
archive transaction.  A failed repo transaction aborts the layer before
any build. -/
def handleLayer (cfg : Config) (env : Env) (args : Args) (manualConfirm : Bool)
    (dirs : List (String × String)) (built : List String) (layer : Layer) :
    List Cmd × List String × List String × Option Err :=
  let s := syncPart cfg env args manualConfirm layer
  match s.2 with
  | some e => (s.1, built, [], some e)
  | none =>
    let a := aurPart cfg env args manualConfirm dirs built layer
    (s.1 ++ a.1, a.2.1, a.2.2.1, a.2.2.2)

/-- The result state of a run: the full command trace, the accumulated
failed-and-ignored package names, and the set of archives on disk. -/
structure St where
  trace : List Cmd
  failed : List String
  built : List String
deriving Repr

/-- Process layers in order (deepest dependencies first), accumulating
trace, disk state and failures; a layer's install-transaction error
aborts immediately (spec §4.1 step 7). -/
def installGo (cfg : Config) (env : Env) (args : Args) (manualConfirm : Bool)
    (dirs : List (String × String)) : St → List Layer → St × Option Err
  | st, [] => (st, none)
  | st, layer :: rest =>
    let r := handleLayer cfg env args manualConfirm dirs st.built layer
    let st' : St :=
      ⟨st.trace ++ r.1, insertAllNew st.failed r.2.2.1, r.2.1⟩
    match r.2.2.2 with
    | some e => (st', some e)
    | none => installGo cfg env args manualConfirm dirs st' rest

/-- `Installer.Install(ctx, cmdArgs, targets, pkgBuildDirs, excluded,
manualConfirmRequired)`.  `targets` is ordered target-first, so layers
are processed in reverse order (deepest dependency layer first), as the
trace of `TestInstaller_InstallSplitPackage` requires.  `excluded` is
forwarded by the orchestration layer and does not affect the modelled
observables. -/
def Install (cfg : Config) (env : Env) (args : Args)
    (targets : List Layer) (dirs : List (String × String))
    (_excluded : List String) (manualConfirm : Bool) : St × Option Err :=
  installGo cfg env args manualConfirm dirs ⟨[], [], []⟩ targets.reverse

/-- `Installer.CompileFailedAndIgnored()`: the accumulated failed package
names, with an error naming them when non-empty. -/
def CompileFailedAndIgnored (st : St) : List String × Option Err :=
  if st.failed.isEmpty then ([], none)
  else (st.failed, some (.compileFailed st.failed))

/-! ## Post-install hooks and the operation service -/

/-- A registered post-install hook: its identity and the error it returns
when run. -/
abbrev Hook := String × Option Err

/-- `Installer.RunPostInstallHooks`: run every registered hook in
registration order, collecting errors rather than aborting; returns the
executed hook identities and the aggregated error. -/
def RunPostInstallHooks (hooks : List Hook) : List String × Option Err :=
  (hooks.map (fun h => h.1), multiOf (hooks.filterMap (fun h => h.2)))

/-- Result of `OperationService.Run` (`pkg/sync/sync.go`): which hooks ran
and the final error. -/
structure OpResult where
  trace : List Cmd
  hooksRan : List String
  err : Option Err

/-- `OperationService.Run` (`pkg/sync/sync.go:40-115`), reduced to the
install pipeline: call `Install`; on error return it at once (hooks do
not run); otherwise collect `CompileFailedAndIgnored`'s error and run the
post-install hooks, aggregating both into the final result. -/
def operationRun (cfg : Config) (env : Env) (args : Args)
    (targets : List Layer) (dirs : List (String × String))
    (excluded : List String) (manualConfirm : Bool) (hooks : List Hook) :
    OpResult :=
  let r := Install cfg env args targets dirs excluded manualConfirm
  match r.2 with
  | some e => ⟨r.1.trace, [], some e⟩
  | none =>
    let errC := (CompileFailedAndIgnored r.1).2
    let h := RunPostInstallHooks hooks
    ⟨r.1.trace, h.1, multiOf ([errC, h.2].filterMap id)⟩

/-! ## Fanout source downloader

Modelled from the spec: `pkg/sync/workdir/aur_source.go` is absent from
the source tree (only `aur_source_test.go` is).  Flags follow spec §4.3
and `Test_downloadPKGBUILDSource`: always `--nocheck` (carried by the
command builder's configured makepkg flags in the source),
`--verifysource`, `--skippgpcheck`, `-f`; plus `-Cc` (clean sources
after) unless `keepSources` is set.  The fanout runs one invocation per
`(base, dir)` pair, bounded by a semaphore of size `maxConcurrency`
(`0` or less meaning unbounded); the bound only schedules the
invocations, so it does not affect the modelled observables — every pair
is invoked, all invocations are awaited, and per-pair failures are
collected into one aggregated error. -/

def downloadSourceArgs (keepSrc : Bool) : List String :=
  ["--nocheck", "--verifysource", "--skippgpcheck", "-f"] ++
    (if keepSrc then [] else ["-Cc"])

/-- `downloadPKGBUILDSource`: one makepkg invocation in
verify-sources-only mode for a build directory. -/
def downloadPKGBUILDSource (env : Env) (dir : String) (keepSrc : Bool) :
    Cmd × Option Err :=
  (Cmd.makepkgShow dir (downloadSourceArgs keepSrc),
    if env.sourceFails dir then some (.download dir) else none)

/-- `downloadPKGBUILDSourceFanout`: invoke the downloader once per
`(base, dir)` pair, await all, and aggregate the failures. -/
def downloadPKGBUILDSourceFanout (env : Env)
    (pairs : List (String × String)) (keepSrc : Bool) (_maxConcurrency : Int) :
    List Cmd × Option Err :=
  let results := pairs.map (fun p => downloadPKGBUILDSource env p.2 keepSrc)
  (results.map (fun r => r.1), multiOf (results.filterMap (fun r => r.2)))

/-! ## Concrete fixtures

Instances mirroring the installer tests' mocks: nothing installed, every
package's archive named after it, no external failures unless overridden. -/

def baseEnv : Env where
  isInstalled := fun _ _ => false
  archiveOf := fun n => "/testdir/" ++ n ++ ".pkg.tar.zst"
  baseArchives := fun b => ["/testdir/" ++ b ++ ".pkg.tar.zst"]
  buildFails := fun _ => false
  syncFails := fun _ => false
  upgradeFails := fun _ => false
  reasonMatches := fun _ _ => false
  sourceFails := fun _ => false

/-- The `yippee` AUR target of the installer tests. -/
def yippeeInfo : InstallInfo :=
  { source := .aur, reason := .explicit, version := "91.0.0-1",
    srcinfoPath := some "/testdir/.SRCINFO", aurBase := some "yippee" }

/-- The `core/linux` repo dependency of the installer tests. -/
def linuxInfo : InstallInfo :=
  { source := .sync, reason := .dep, version := "17.0.0-1",
    syncDBName := some "core" }

/-- One layer mixing a repo package and an AUR package
(`TestInstaller_InstallMixedSourcesAndLayers`, "same layer -- different
sources"). -/
def mixedLayer : Layer := [("yippee", yippeeInfo), ("linux", linuxInfo)]

/-- The default installer configuration of the tests
(`ModeAny`, `RebuildModeNo`, not download-only). -/
def cfgAny : Config := ⟨TargetMode.any, false, false, false⟩

/-! ## Basic lemmas about the makepkg argument vectors -/

theorem isFullBuild_refresh (d : String) (k : Bool) :
    isFullBuild (Cmd.makepkgShow d (refreshArgs k)) = false := by
  cases k <;> rfl

theorem isFullBuild_noBuild (d : String) (k : Bool) :
    isFullBuild (Cmd.makepkgShow d (noBuildArgs k)) = false := by
  cases k <;> rfl

theorem isFullBuild_fullBuild (d : String) (k : Bool) :
    isFullBuild (Cmd.makepkgShow d (fullBuildArgs k)) = true := by
  cases k <;> rfl

theorem cmdFails_of_makepkg (env : Env) (c : Cmd) (h : isMakepkg c = true) :
    cmdFails env c = false := by
  cases c <;> simp_all [isMakepkg, cmdFails]

theorem mem_nobuild_refreshArgs (k : Bool) : "--nobuild" ∈ refreshArgs k := by
  cases k <;> decide

theorem mem_nobuild_noBuildArgs (k : Bool) : "--nobuild" ∈ noBuildArgs k := by
  cases k <;> decide

theorem not_mem_nobuild_fullBuildArgs (k : Bool) :
    "--nobuild" ∉ fullBuildArgs k := by
  cases k <;> decide

/-! ## Claim C7: fanout source downloader -/

/-- The failures collected by the fanout are exactly one `download` error
per failing pair, in order. -/
theorem fanout_errs (env : Env) (pairs : List (String × String))
    (keepSrc : Bool) :
    (pairs.map (fun p => downloadPKGBUILDSource env p.2 keepSrc)).filterMap
        (fun r => r.2) =
      (pairs.filter (fun p => env.sourceFails p.2)).map
        (fun p => Err.download p.2) := by
  induction pairs with
  | nil => rfl
  | cons p ps ih =>
    simp only [List.map_cons, List.filterMap_cons, List.filter_cons]
    cases hsf : env.sourceFails p.2 with
    | false => simpa [downloadPKGBUILDSource, hsf] using ih
    | true => simpa [downloadPKGBUILDSource, hsf] using ih

/-- **C7.** For every map of `(base, dir)` pairs, the fanout source
downloader invokes the build tool exactly once per pair (one invocation
per pair, in order, regardless of any failures, so a single pair's
failure never suppresses the others), awaits them all, and returns `nil`
precisely when all succeeded, otherwise an aggregated error with one
entry per failed pair. -/
theorem fanout_invokes_once_per_pair_and_aggregates
    (env : Env) (pairs : List (String × String)) (keepSrc : Bool)
    (mc : Int) :
    (downloadPKGBUILDSourceFanout env pairs keepSrc mc).1 =
      pairs.map (fun p => (downloadPKGBUILDSource env p.2 keepSrc).1) ∧
    ((downloadPKGBUILDSourceFanout env pairs keepSrc mc).2 = none ↔
      ∀ p ∈ pairs, env.sourceFails p.2 = false) ∧
    (downloadPKGBUILDSourceFanout env pairs keepSrc mc).2 =
      multiOf ((pairs.filter (fun p => env.sourceFails p.2)).map
        (fun p => Err.download p.2)) := by
  have herr : (downloadPKGBUILDSourceFanout env pairs keepSrc mc).2 =
      multiOf ((pairs.filter (fun p => env.sourceFails p.2)).map
        (fun p => Err.download p.2)) := by
    simp only [downloadPKGBUILDSourceFanout]
    rw [fanout_errs]
  refine ⟨by simp [downloadPKGBUILDSourceFanout], ?_, herr⟩
  rw [herr]
  constructor
  · intro h p hp
    rcases hl : pairs.filter (fun p => env.sourceFails p.2) with _ | ⟨q, qs⟩
    · simpa using List.filter_eq_nil_iff.mp hl p hp
    · rw [hl] at h; simp [multiOf] at h
  · intro h
    have hnil : pairs.filter (fun p => env.sourceFails p.2) = [] :=
      List.filter_eq_nil_iff.mpr (fun p hp => by simp [h p hp])
    rw [hnil]; rfl

/-! ## Claim C8: source downloader flags -/

/-- **C8.** Every build-tool command issued by the source downloader
(single call and fanout alike) carries the no-check, verify-sources-only,
skip-PGP-check and force flags, and carries the clean-sources-after flag
iff `keepSources` is not set. -/
theorem download_source_flags (env : Env) (dir : String) (keepSrc : Bool) :
    (downloadPKGBUILDSource env dir keepSrc).1 =
      Cmd.makepkgShow dir (downloadSourceArgs keepSrc) ∧
    "--nocheck" ∈ downloadSourceArgs keepSrc ∧
    "--verifysource" ∈ downloadSourceArgs keepSrc ∧
    "--skippgpcheck" ∈ downloadSourceArgs keepSrc ∧
    "-f" ∈ downloadSourceArgs keepSrc ∧
    ("-Cc" ∈ downloadSourceArgs keepSrc ↔ keepSrc = false) ∧
    (∀ pairs mc, ∀ c ∈ (downloadPKGBUILDSourceFanout env pairs keepSrc
        (mc : Int)).1, ∃ d, c = Cmd.makepkgShow d (downloadSourceArgs keepSrc)) := by
  refine ⟨rfl, ?_, ?_, ?_, ?_, ?_, ?_⟩
  · cases keepSrc <;> decide
  · cases keepSrc <;> decide
  · cases keepSrc <;> decide
  · cases keepSrc <;> decide
  · cases keepSrc <;> decide
  · intro pairs mc c hc
    simp only [downloadPKGBUILDSourceFanout, List.map_map, List.mem_map] at hc
    rcases hc with ⟨p, _, rfl⟩
    exact ⟨p.2, rfl⟩

/-! ## Structural lemmas about the emitted traces -/

theorem mem_of_getLast?_eq {α : Type} {l : List α} {c : α}
    (h : l.getLast? = some c) : c ∈ l := by
  obtain ⟨hne, hc⟩ := List.mem_getLast?_eq_getLast (Option.mem_def.mpr h)
  exact hc ▸ List.getLast_mem hne

/-- The build driver always emits exactly a metadata refresh, one
archive-list capture and one further makepkg invocation. -/
theorem buildOne_shape (cfg : Config) (env : Env) (args : Args)
    (built : List String) (dir b : String) (bpkgs : Layer) :
    ∃ x, (buildOne cfg env args built dir b bpkgs).1 =
      [Cmd.makepkgShow dir (refreshArgs cfg.keepSrc),
       Cmd.makepkgCapture dir ["--packagelist"],
       Cmd.makepkgShow dir x] := by
  simp only [buildOne]
  split
  · exact ⟨noBuildArgs cfg.keepSrc, rfl⟩
  · split
    · exact ⟨fullBuildArgs cfg.keepSrc, rfl⟩
    · exact ⟨fullBuildArgs cfg.keepSrc, rfl⟩

theorem buildOne_makepkg (cfg : Config) (env : Env) (args : Args)
    (built : List String) (dir b : String) (bpkgs : Layer) :
    ∀ c ∈ (buildOne cfg env args built dir b bpkgs).1, isMakepkg c = true := by
  obtain ⟨x, hx⟩ := buildOne_shape cfg env args built dir b bpkgs
  intro c hc
  rw [hx] at hc
  simp only [List.mem_cons, List.not_mem_nil, or_false] at hc
  rcases hc with rfl | rfl | rfl <;> rfl

theorem buildAll_makepkg (cfg : Config) (env : Env) (args : Args)
    (dirs : List (String × String)) (layer : Layer) :
    ∀ (bsl : List String) (built : List String),
      ∀ c ∈ (buildAll cfg env args dirs layer built bsl).1,
        isMakepkg c = true := by
  intro bsl
  induction bsl with
  | nil =>
    intro built c hc
    simp [buildAll] at hc
  | cons b bs ih =>
    intro built c hc
    simp only [buildAll] at hc
    split at hc
    · rcases List.mem_append.mp hc with h1 | h2
      · exact buildOne_makepkg _ _ _ _ _ _ _ c h1
      · exact ih _ c h2
    · rcases List.mem_append.mp hc with h1 | h2
      · exact buildOne_makepkg _ _ _ _ _ _ _ c h1
      · exact ih _ c h2

theorem setReasonCmds_mem (env : Env) (d e : List String) :
    ∀ c ∈ setReasonCmds env d e, ∃ b ts, c = Cmd.pacmanD b ts := by
  intro c hc
  simp only [setReasonCmds] at hc
  rcases List.mem_append.mp hc with h | h
  · split at h
    · cases h
    · exact ⟨true, _, List.mem_singleton.mp h⟩
  · split at h
    · cases h
    · exact ⟨false, _, List.mem_singleton.mp h⟩

/-! ## Error propagation lemmas (spec §4.1 step 7, §7) -/

theorem syncPart_spec (cfg : Config) (env : Env) (args : Args) (mc : Bool)
    (layer : Layer) :
    ((syncPart cfg env args mc layer).2 = none →
      ∀ c ∈ (syncPart cfg env args mc layer).1, cmdFails env c = false) ∧
    (∀ e, (syncPart cfg env args mc layer).2 = some e →
      ∃ c, (syncPart cfg env args mc layer).1.getLast? = some c ∧
        cmdFails env c = true) := by
  simp only [syncPart]
  split
  · exact ⟨fun _ c hc => absurd hc (List.not_mem_nil c), fun e he => by cases he⟩
  · split
    next hfail =>
      refine ⟨fun h => (nomatch h), fun e he => ?_⟩
      refine ⟨Cmd.pacmanS (syncExtraArgs cfg args mc)
        ((syncPkgsOf layer).map (fun p => qualifiedName p.1 p.2)), ?_, ?_⟩
      · rfl
      · simpa [cmdFails] using hfail
    next hok =>
      split
      · refine ⟨fun _ c hc => ?_, fun e he => by cases he⟩
        rcases List.mem_singleton.mp hc with rfl
        simpa [cmdFails] using hok
      · refine ⟨fun _ c hc => ?_, fun e he => by cases he⟩
        rcases List.mem_cons.mp hc with rfl | h2
        · simpa [cmdFails] using hok
        · obtain ⟨b', ts, rfl⟩ := setReasonCmds_mem env _ _ c h2
          rfl

theorem aurPart_spec (cfg : Config) (env : Env) (args : Args) (mc : Bool)
    (dirs : List (String × String)) (built : List String) (layer : Layer) :
    ((aurPart cfg env args mc dirs built layer).2.2.2 = none →
      ∀ c ∈ (aurPart cfg env args mc dirs built layer).1,
        cmdFails env c = false) ∧
    (∀ e, (aurPart cfg env args mc dirs built layer).2.2.2 = some e →
      ∃ c, (aurPart cfg env args mc dirs built layer).1.getLast? = some c ∧
        cmdFails env c = true) := by
  simp only [aurPart]
  split
  · exact ⟨fun _ c hc => cmdFails_of_makepkg env c
      (buildAll_makepkg _ _ _ _ _ _ _ c hc), fun e he => by cases he⟩
  · split
    · exact ⟨fun _ c hc => cmdFails_of_makepkg env c
        (buildAll_makepkg _ _ _ _ _ _ _ c hc), fun e he => by cases he⟩
    · split
      next hU =>
        refine ⟨fun h => (nomatch h), fun e he => ?_⟩
        refine ⟨Cmd.pacmanU (upgradeExtraArgs args mc)
          ((includedPkgs env args (buildAll cfg env args dirs layer built
            (basesOf layer)).2.2.2).map (fun p => env.archiveOf p.1)), ?_, ?_⟩
        · rw [List.getLast?_append_of_ne_nil _ (by simp)]
          rfl
        · simpa [cmdFails] using hU
      next hU =>
        refine ⟨fun _ c hc => ?_, fun e he => by cases he⟩
        rcases List.mem_append.mp hc with h1 | h2
        · exact cmdFails_of_makepkg env c
            (buildAll_makepkg _ _ _ _ _ _ _ c h1)
        · rcases List.mem_cons.mp h2 with rfl | h3
          · simpa [cmdFails] using hU
          · obtain ⟨b', ts, rfl⟩ := setReasonCmds_mem env _ _ c h3
            rfl

theorem handleLayer_spec (cfg : Config) (env : Env) (args : Args) (mc : Bool)
    (dirs : List (String × String)) (built : List String) (layer : Layer) :
    ((handleLayer cfg env args mc dirs built layer).2.2.2 = none →
      ∀ c ∈ (handleLayer cfg env args mc dirs built layer).1,
        cmdFails env c = false) ∧
    (∀ e, (handleLayer cfg env args mc dirs built layer).2.2.2 = some e →
      ∃ c, (handleLayer cfg env args mc dirs built layer).1.getLast? =
          some c ∧ cmdFails env c = true) := by
  simp only [handleLayer]
  split
  next e heq =>
    refine ⟨fun h => (nomatch h), fun e' he' => ?_⟩
    cases he'
    exact (syncPart_spec cfg env args mc layer).2 e heq
  next heq =>
    constructor
    · intro h c hc
      rcases List.mem_append.mp hc with h1 | h2
      · exact (syncPart_spec cfg env args mc layer).1 heq c h1
      · exact (aurPart_spec cfg env args mc dirs built layer).1 h c h2
    · intro e he
      obtain ⟨c, hc1, hc2⟩ :=
        (aurPart_spec cfg env args mc dirs built layer).2 e he
      have hne : (aurPart cfg env args mc dirs built layer).1 ≠ [] := by
        intro hnil
        rw [hnil] at hc1
        cases hc1
      refine ⟨c, ?_, hc2⟩
      rw [List.getLast?_append_of_ne_nil _ hne]
      exact hc1

theorem installGo_spec (cfg : Config) (env : Env) (args : Args) (mc : Bool)
    (dirs : List (String × String)) :
    ∀ (layers : List Layer) (st : St),
      (∀ c ∈ st.trace, cmdFails env c = false) →
      (((installGo cfg env args mc dirs st layers).2 = none ↔
        ∀ c ∈ (installGo cfg env args mc dirs st layers).1.trace,
          cmdFails env c = false) ∧
       (∀ e, (installGo cfg env args mc dirs st layers).2 = some e →
        ∃ c, (installGo cfg env args mc dirs st layers).1.trace.getLast? =
            some c ∧ cmdFails env c = true)) := by
  intro layers
  induction layers with
  | nil =>
    intro st hpre
    refine ⟨⟨fun _ => hpre, fun _ => rfl⟩, fun e he => ?_⟩
    cases he
  | cons layer rest ih =>
    intro st hpre
    simp only [installGo]
    split
    next e heq =>
      obtain ⟨c, hc1, hc2⟩ :=
        (handleLayer_spec cfg env args mc dirs st.built layer).2 e heq
      have hne : (handleLayer cfg env args mc dirs st.built layer).1 ≠ [] := by
        intro hnil
        rw [hnil] at hc1
        cases hc1
      constructor
      · constructor
        · intro h; cases h
        · intro hall
          exfalso
          have hcmem : c ∈ st.trace ++
              (handleLayer cfg env args mc dirs st.built layer).1 :=
            List.mem_append.mpr (Or.inr (mem_of_getLast?_eq hc1))
          have hcf := hall c hcmem
          simp [hc2] at hcf
      · intro e' he'
        cases he'
        refine ⟨c, ?_, hc2⟩
        show (st.trace ++ _).getLast? = some c
        rw [List.getLast?_append_of_ne_nil _ hne]
        exact hc1
    next heq =>
      have hgood := (handleLayer_spec cfg env args mc dirs st.built layer).1 heq
      have hpre' : ∀ c ∈ st.trace ++
          (handleLayer cfg env args mc dirs st.built layer).1,
          cmdFails env c = false := by
        intro c hc
        rcases List.mem_append.mp hc with h1 | h2
        · exact hpre c h1
        · exact hgood c h2
      exact ih _ hpre'

/-! ## Claim C2: error propagation of `Install` -/

/-- Build failure for base `yippee` only (the mock `showOverride` of
`TestInstaller_CompileFailed`). -/
def envBuildFail : Env := { baseEnv with buildFails := fun b => b == "yippee" }

/-- Every archive install transaction fails (`failPkgInstall`). -/
def envUpgradeFail : Env := { baseEnv with upgradeFails := fun _ => true }

/-- The `bob` entry of `TestInstaller_CompileFailed` "two layers": a
package named `bob` whose base is `yippee`. -/
def bobInfo : InstallInfo :=
  { source := .aur, reason := .explicit, aurBase := some "yippee" }

/-- **C2 (counterexample).** The claim says `CompileFailedAndIgnored`
returns the accumulated failed *base* names.  Running the repository's own
`TestInstaller_CompileFailed` "two layers" scenario — `bob` (base
`yippee`) in one layer and `yippee` (base `yippee`) in the next, every
build of base `yippee` failing — the only failed base is `yippee`, yet the
returned list is `["yippee", "bob"]`: it contains `bob`, which is no
entry's `AURBase`; the list holds failed package names, not base names.
`Install` itself still returns no error. -/
theorem compile_failed_returns_package_names :
    ((CompileFailedAndIgnored (Install cfgAny envBuildFail ⟨["needed"]⟩
        [[("bob", bobInfo)], [("yippee", yippeeInfo)]]
        [("yippee", "/testdir")] [] false).1).1 = ["yippee", "bob"]) ∧
    ((CompileFailedAndIgnored (Install cfgAny envBuildFail ⟨["needed"]⟩
        [[("bob", bobInfo)], [("yippee", yippeeInfo)]]
        [("yippee", "/testdir")] [] false).1).1 ≠ ["yippee"]) ∧
    "bob" ∈ (CompileFailedAndIgnored (Install cfgAny envBuildFail
        ⟨["needed"]⟩ [[("bob", bobInfo)], [("yippee", yippeeInfo)]]
        [("yippee", "/testdir")] [] false).1).1 ∧
    (∀ L ∈ [[("bob", bobInfo)], [("yippee", yippeeInfo)]], ∀ p ∈ L,
      p.2.aurBase ≠ some "bob") ∧
    (Install cfgAny envBuildFail ⟨["needed"]⟩
        [[("bob", bobInfo)], [("yippee", yippeeInfo)]]
        [("yippee", "/testdir")] [] false).2.isNone = true := by
  refine ⟨?_, ?_, ?_, ?_, ?_⟩ <;> decide

/-- **C2 (amended).** `Install` returns a non-nil error iff one of the
package-manager install transactions it issued failed; the failing
transaction is the last command issued (immediate abort, nothing runs
after it), so build failures alone never make `Install` err.
`CompileFailedAndIgnored` returns the accumulated failed *package* names
with a non-nil error naming exactly them when non-empty, and `([], nil)`
otherwise. -/
theorem install_error_iff_transaction_failure (cfg : Config) (env : Env)
    (args : Args) (targets : List Layer) (dirs : List (String × String))
    (ex : List String) (mc : Bool) :
    ((Install cfg env args targets dirs ex mc).2 = none ↔
      ∀ c ∈ (Install cfg env args targets dirs ex mc).1.trace,
        cmdFails env c = false) ∧
    (∀ e, (Install cfg env args targets dirs ex mc).2 = some e →
      ∃ c, (Install cfg env args targets dirs ex mc).1.trace.getLast? =
          some c ∧ cmdFails env c = true) ∧
    ((Install cfg env args targets dirs ex mc).1.failed = [] →
      CompileFailedAndIgnored (Install cfg env args targets dirs ex mc).1 =
        ([], none)) ∧
    (∀ n, n ∈ (Install cfg env args targets dirs ex mc).1.failed →
      (CompileFailedAndIgnored
          (Install cfg env args targets dirs ex mc).1).1 =
        (Install cfg env args targets dirs ex mc).1.failed ∧
      (CompileFailedAndIgnored
          (Install cfg env args targets dirs ex mc).1).2 =
        some (.compileFailed
          (Install cfg env args targets dirs ex mc).1.failed)) := by
  have h := installGo_spec cfg env args mc dirs targets.reverse ⟨[], [], []⟩
    (fun c hc => absurd hc (List.not_mem_nil c))
  refine ⟨h.1, h.2, ?_, ?_⟩
  · intro hf
    simp [CompileFailedAndIgnored, hf]
  · intro n hn
    have hne : (Install cfg env args targets dirs ex mc).1.failed.isEmpty
        = false := by
      cases hfl : (Install cfg env args targets dirs ex mc).1.failed with
      | nil => rw [hfl] at hn; cases hn
      | cons a l => rfl
    exact ⟨by simp [CompileFailedAndIgnored, hne],
      by simp [CompileFailedAndIgnored, hne]⟩

/-- Witness for C2: a failing archive transaction makes `Install` err
with the failing `pacman -U` as the very last issued command. -/
theorem install_error_iff_transaction_failure_witness :
    ∃ c, (Install cfgAny envUpgradeFail ⟨[]⟩ [[("yippee", yippeeInfo)]]
        [("yippee", "/testdir")] [] false).1.trace.getLast? = some c ∧
      cmdFails envUpgradeFail c = true :=
  (install_error_iff_transaction_failure cfgAny envUpgradeFail ⟨[]⟩
    [[("yippee", yippeeInfo)]] [("yippee", "/testdir")] [] false).2.1
    (Err.aurInstall ["/testdir/yippee.pkg.tar.zst"]) rfl

/-! ## Claim C5: download-only mode -/

/-- The download-only configuration of
`TestInstaller_InstallDownloadOnly` / `TestInstaller_InstallGroup`. -/
def dlCfg : Config := ⟨TargetMode.any, false, true, false⟩

/-- The `community/kubernetes-tools` group target of
`TestInstaller_InstallGroup` (which runs with download-only set). -/
def groupInfo : InstallInfo :=
  { source := .sync, reason := .explicit, isGroup := true,
    syncDBName := some "community" }

theorem buildOne_downloadOnly (cfg : Config) (env : Env) (args : Args)
    (built : List String) (dir b : String) (bpkgs : Layer)
    (hdl : cfg.downloadOnly = true) :
    buildOne cfg env args built dir b bpkgs =
      ([Cmd.makepkgShow dir (refreshArgs cfg.keepSrc),
        Cmd.makepkgCapture dir ["--packagelist"],
        Cmd.makepkgShow dir (noBuildArgs cfg.keepSrc)], built, true) := by
  simp only [buildOne]
  rw [if_pos (Or.inl (by simp [hdl]))]

theorem buildAll_downloadOnly (cfg : Config) (env : Env) (args : Args)
    (dirs : List (String × String)) (layer : Layer)
    (hdl : cfg.downloadOnly = true) :
    ∀ (bsl : List String) (built : List String),
      (buildAll cfg env args dirs layer built bsl).2.1 = built ∧
      (buildAll cfg env args dirs layer built bsl).2.2.1 = [] ∧
      ∀ c ∈ (buildAll cfg env args dirs layer built bsl).1,
        isMakepkg c = true ∧ isFullBuild c = false := by
  intro bsl
  induction bsl with
  | nil =>
    intro built
    exact ⟨rfl, rfl, fun c hc => by simp [buildAll] at hc⟩
  | cons b bs ih =>
    intro built
    simp only [buildAll, buildOne_downloadOnly cfg env args built
      (dirOf dirs b) b (pkgsOfBase layer b) hdl, if_pos]
    obtain ⟨h1, h2, h3⟩ := ih built
    refine ⟨h1, h2, fun c hc => ?_⟩
    rcases List.mem_append.mp hc with hm | hm
    · simp only [List.mem_cons, List.not_mem_nil, or_false] at hm
      rcases hm with rfl | rfl | rfl
      · exact ⟨rfl, isFullBuild_refresh _ _⟩
      · exact ⟨rfl, rfl⟩
      · exact ⟨rfl, isFullBuild_noBuild _ _⟩
    · exact h3 c hm

theorem syncPart_cmds_are_pacmanS (cfg : Config) (env : Env) (args : Args)
    (mc : Bool) (layer : Layer) (hdl : cfg.downloadOnly = true) :
    ∀ c ∈ (syncPart cfg env args mc layer).1, ∃ ea ts,
      c = Cmd.pacmanS ea ts := by
  intro c hc
  cases hemp : (syncPkgsOf layer).isEmpty with
  | true => simp [syncPart, hemp] at hc
  | false =>
    cases hsf : env.syncFails ((syncPkgsOf layer).map
        (fun p => qualifiedName p.1 p.2)) with
    | true =>
      simp [syncPart, hemp, hsf] at hc
      exact ⟨_, _, hc⟩
    | false =>
      simp [syncPart, hemp, hsf, hdl] at hc
      exact ⟨_, _, hc⟩

theorem handleLayer_downloadOnly (cfg : Config) (env : Env) (args : Args)
    (mc : Bool) (dirs : List (String × String)) (built : List String)
    (layer : Layer) (hdl : cfg.downloadOnly = true) :
    (handleLayer cfg env args mc dirs built layer).2.1 = built ∧
    (handleLayer cfg env args mc dirs built layer).2.2.1 = [] ∧
    ∀ c ∈ (handleLayer cfg env args mc dirs built layer).1,
      isFullBuild c = false ∧
        (isMakepkg c = true ∨ ∃ ea ts, c = Cmd.pacmanS ea ts) := by
  have haur : aurPart cfg env args mc dirs built layer =
      ((buildAll cfg env args dirs layer built (basesOf layer)).1,
       (buildAll cfg env args dirs layer built (basesOf layer)).2.1,
       (buildAll cfg env args dirs layer built (basesOf layer)).2.2.1,
       none) := by
    simp only [aurPart]
    rw [if_pos (by simp [hdl])]
  obtain ⟨hb1, hb2, hb3⟩ :=
    buildAll_downloadOnly cfg env args dirs layer hdl (basesOf layer) built
  simp only [handleLayer]
  split
  next e heq =>
    refine ⟨rfl, rfl, fun c hc => ?_⟩
    obtain ⟨ea, ts, rfl⟩ := syncPart_cmds_are_pacmanS cfg env args mc layer
      hdl c hc
    exact ⟨rfl, Or.inr ⟨ea, ts, rfl⟩⟩
  next heq =>
    rw [haur]
    refine ⟨hb1, hb2, fun c hc => ?_⟩
    rcases List.mem_append.mp hc with h1 | h2
    · obtain ⟨ea, ts, rfl⟩ := syncPart_cmds_are_pacmanS cfg env args mc layer
        hdl c h1
      exact ⟨rfl, Or.inr ⟨ea, ts, rfl⟩⟩
    · exact ⟨(hb3 c h2).2, Or.inl (hb3 c h2).1⟩

theorem installGo_downloadOnly (cfg : Config) (env : Env) (args : Args)
    (mc : Bool) (dirs : List (String × String))
    (hdl : cfg.downloadOnly = true) :
    ∀ (layers : List Layer) (st : St),
      (installGo cfg env args mc dirs st layers).1.built = st.built ∧
      (installGo cfg env args mc dirs st layers).1.failed = st.failed ∧
      ∀ c ∈ (installGo cfg env args mc dirs st layers).1.trace,
        c ∈ st.trace ∨ (isFullBuild c = false ∧
          (isMakepkg c = true ∨ ∃ ea ts, c = Cmd.pacmanS ea ts)) := by
  intro layers
  induction layers with
  | nil =>
    intro st
    exact ⟨rfl, rfl, fun c hc => Or.inl hc⟩
  | cons layer rest ih =>
    intro st
    obtain ⟨hl1, hl2, hl3⟩ :=
      handleLayer_downloadOnly cfg env args mc dirs st.built layer hdl
    simp only [installGo]
    split
    next e heq =>
      refine ⟨hl1, by rw [hl2]; exact rfl, fun c hc => ?_⟩
      rcases List.mem_append.mp hc with h1 | h2
      · exact Or.inl h1
      · exact Or.inr (hl3 c h2)
    next heq =>
      obtain ⟨hi1, hi2, hi3⟩ := ih ⟨st.trace ++
        (handleLayer cfg env args mc dirs st.built layer).1,
        insertAllNew st.failed
          (handleLayer cfg env args mc dirs st.built layer).2.2.1,
        (handleLayer cfg env args mc dirs st.built layer).2.1⟩
      refine ⟨by rw [hi1]; exact hl1, by rw [hi2, hl2]; exact rfl,
        fun c hc => ?_⟩
      rcases hi3 c hc with h1 | h2
      · rcases List.mem_append.mp h1 with ha | hb
        · exact Or.inl ha
        · exact Or.inr (hl3 c hb)
      · exact Or.inr h2

/-- **C5 (counterexample).** The claim says download-only produces a
trace containing only build-tool commands, with archives produced for
every SourceBuild package.  Both halves fail on the repository's own
download-only tests: `TestInstaller_InstallGroup` runs with download-only
set and still issues `pacman -S community/kubernetes-tools` (a
package-manager invocation), and `TestInstaller_InstallDownloadOnly`
"not installed and not built" performs no full build, so the missing
archive is not produced. -/
theorem download_only_counterexample :
    (¬ ∀ c ∈ (Install dlCfg baseEnv ⟨[]⟩
        [[("kubernetes-tools", groupInfo)]] [] [] false).1.trace,
      isMakepkg c = true) ∧
    (Install dlCfg baseEnv ⟨[]⟩ [[("yippee", yippeeInfo)]]
        [("yippee", "/testdir")] [] false).1.trace.countP isFullBuild = 0 ∧
    (Install dlCfg baseEnv ⟨[]⟩ [[("yippee", yippeeInfo)]]
        [("yippee", "/testdir")] [] false).1.built = [] := by
  refine ⟨?_, ?_, ?_⟩ <;> decide

/-- **C5 (amended).** In download-only mode `Install` performs no full
build (AUR bases only get the metadata refresh, archive-list query and a
no-build source invocation, so no archive is produced into the disk
state), records no failure, and issues no package-manager command other
than the repo `pacman -S` transaction, which carries the caller's
download-only flag; in particular no archive install and no
reason-update invocation happens. -/
theorem install_download_only (cfg : Config) (env : Env) (args : Args)
    (targets : List Layer) (dirs : List (String × String))
    (ex : List String) (mc : Bool) (hdl : cfg.downloadOnly = true) :
    (∀ c ∈ (Install cfg env args targets dirs ex mc).1.trace,
      isFullBuild c = false) ∧
    (∀ c ∈ (Install cfg env args targets dirs ex mc).1.trace,
      isMakepkg c = true ∨ ∃ ea ts, c = Cmd.pacmanS ea ts) ∧
    (Install cfg env args targets dirs ex mc).1.built = [] ∧
    (Install cfg env args targets dirs ex mc).1.failed = [] := by
  obtain ⟨h1, h2, h3⟩ := installGo_downloadOnly cfg env args mc dirs hdl
    targets.reverse ⟨[], [], []⟩
  refine ⟨fun c hc => ?_, fun c hc => ?_, h1, h2⟩
  · rcases h3 c hc with h | h
    · cases h
    · exact h.1
  · rcases h3 c hc with h | h
    · cases h
    · exact h.2

/-- Witness for C5 (amended): the download-only AUR scenario issues no
pacman command at all and no full build. -/
theorem install_download_only_witness :
    (∀ c ∈ (Install dlCfg baseEnv ⟨[]⟩ [[("yippee", yippeeInfo)]]
        [("yippee", "/testdir")] [] false).1.trace,
      isFullBuild c = false) ∧
    (Install dlCfg baseEnv ⟨[]⟩ [[("yippee", yippeeInfo)]]
        [("yippee", "/testdir")] [] false).1.built = [] := by
  have h := install_download_only dlCfg baseEnv ⟨[]⟩
    [[("yippee", yippeeInfo)]] [("yippee", "/testdir")] [] false rfl
  exact ⟨h.1, h.2.2.1⟩

/-! ## Claim C1: per-layer install transactions -/

/-- The sync-DB-qualified names passed to the layer's `pacman -S`. -/
def syncTargets (layer : Layer) : List String :=
  (syncPkgsOf layer).map (fun p => qualifiedName p.1 p.2)

/-- The layer's source-build entries grouped by base, in base order:
what a fully successful build pass hands to the archive transaction. -/
def groupedAur (layer : Layer) : Layer :=
  (basesOf layer).foldr (fun b acc => pkgsOfBase layer b ++ acc) []

/-- The resolved archive paths of the layer's source-build entries. -/
def archivesOfLayer (env : Env) (layer : Layer) : List String :=
  (groupedAur layer).map (fun p => env.archiveOf p.1)

theorem buildOne_ok (cfg : Config) (env : Env) (args : Args)
    (built : List String) (dir b : String) (bpkgs : Layer)
    (hbf : env.buildFails b = false) :
    (buildOne cfg env args built dir b bpkgs).2.2 = true := by
  simp only [buildOne]
  split
  · rfl
  · simp [hbf]

theorem buildAll_ok (cfg : Config) (env : Env) (args : Args)
    (dirs : List (String × String)) (layer : Layer) :
    ∀ (bsl : List String), (∀ b ∈ bsl, env.buildFails b = false) →
      ∀ built,
      (buildAll cfg env args dirs layer built bsl).2.2.1 = [] ∧
      (buildAll cfg env args dirs layer built bsl).2.2.2 =
        bsl.foldr (fun b acc => pkgsOfBase layer b ++ acc) [] := by
  intro bsl
  induction bsl with
  | nil => intro _ built; exact ⟨rfl, rfl⟩
  | cons b bs ih =>
    intro hB built
    have hok := buildOne_ok cfg env args built (dirOf dirs b) b
      (pkgsOfBase layer b) (hB b (List.mem_cons_self b bs))
    have hBs : ∀ b' ∈ bs, env.buildFails b' = false :=
      fun b' hb' => hB b' (List.mem_cons_of_mem b hb')
    obtain ⟨ih1, ih2⟩ := ih hBs
      ((buildOne cfg env args built (dirOf dirs b) b (pkgsOfBase layer b)).2.1)
    simp only [buildAll]
    rw [hok, if_pos rfl]
    exact ⟨ih1, by rw [List.foldr_cons, ← ih2]⟩

theorem mem_groupFold (layer : Layer) :
    ∀ (bsl : List String) (p : String × InstallInfo),
      p ∈ bsl.foldr (fun b acc => pkgsOfBase layer b ++ acc) [] ↔
        ∃ b ∈ bsl, p ∈ pkgsOfBase layer b := by
  intro bsl p
  induction bsl with
  | nil => simp
  | cons b bs ih => simp [List.mem_append, ih]

theorem mem_groupedAur (layer : Layer) (p : String × InstallInfo) :
    p ∈ groupedAur layer ↔
      p ∈ aurPkgsOf layer ∧ ∃ b, p.2.aurBase = some b := by
  rw [groupedAur, mem_groupFold]
  constructor
  · rintro ⟨b, _, hp⟩
    have hm := List.mem_filter.mp hp
    refine ⟨hm.1, b, ?_⟩
    simpa using hm.2
  · rintro ⟨haur, b, hb⟩
    refine ⟨b, ?_, ?_⟩
    · exact List.mem_dedup.mpr (List.mem_filterMap.mpr ⟨p, haur, hb⟩)
    · exact List.mem_filter.mpr ⟨haur, by simp [hb]⟩

theorem includedPkgs_no_needed (env : Env) (args : Args) (succ : Layer)
    (hneed : args.args.contains "needed" = false) :
    includedPkgs env args succ = succ := by
  have hmem : "needed" ∉ args.args := by
    simpa [List.contains, List.elem_eq_mem] using hneed
  simp only [includedPkgs]
  apply List.filter_eq_self.mpr
  intro p _
  simp [hneed, hmem]

theorem filter_install_setReason (env : Env) (d e : List String) :
    (setReasonCmds env d e).filter isInstallCmd = [] := by
  simp only [setReasonCmds]
  rw [List.filter_append]
  split <;> split <;> rfl

theorem filter_install_of_makepkg (l : List Cmd)
    (h : ∀ c ∈ l, isMakepkg c = true) : l.filter isInstallCmd = [] := by
  refine List.filter_eq_nil_iff.mpr (fun c hc => ?_)
  have := h c hc
  cases c <;> simp_all [isMakepkg, isInstallCmd]

theorem syncPart_eq_success (cfg : Config) (env : Env) (args : Args)
    (mc : Bool) (layer : Layer)
    (hemp : (syncPkgsOf layer).isEmpty = false)
    (hsf : env.syncFails (syncTargets layer) = false)
    (hdl : cfg.downloadOnly = false) :
    syncPart cfg env args mc layer =
      (Cmd.pacmanS (syncExtraArgs cfg args mc) (syncTargets layer) ::
        setReasonCmds env (depNames (syncPkgsOf layer))
          (expNames (syncPkgsOf layer)), none) := by
  have hsf' : env.syncFails ((syncPkgsOf layer).map
      (fun p => qualifiedName p.1 p.2)) = false := hsf
  simp [syncPart, hemp, hsf', hdl, syncTargets]

theorem aurPart_eq_success (cfg : Config) (env : Env) (args : Args)
    (mc : Bool) (dirs : List (String × String)) (built : List String)
    (layer : Layer)
    (hdl : cfg.downloadOnly = false)
    (hB : ∀ b ∈ basesOf layer, env.buildFails b = false)
    (hneed : args.args.contains "needed" = false)
    (haur : (groupedAur layer).isEmpty = false)
    (hU : env.upgradeFails (archivesOfLayer env layer) = false) :
    aurPart cfg env args mc dirs built layer =
      ((buildAll cfg env args dirs layer built (basesOf layer)).1 ++
        Cmd.pacmanU (upgradeExtraArgs args mc) (archivesOfLayer env layer) ::
        setReasonCmds env (depNames (groupedAur layer))
          (expNames (groupedAur layer)),
       (buildAll cfg env args dirs layer built (basesOf layer)).2.1,
       [], none) := by
  obtain ⟨hf, hs⟩ := buildAll_ok cfg env args dirs layer (basesOf layer)
    hB built
  have hs' : (buildAll cfg env args dirs layer built (basesOf layer)).2.2.2 =
      groupedAur layer := hs
  have hU' : env.upgradeFails ((groupedAur layer).map
      (fun p => env.archiveOf p.1)) = false := hU
  simp only [aurPart]
  rw [if_neg (by simp [hdl]), hs',
    includedPkgs_no_needed env args _ hneed]
  rw [if_neg (by simp [haur]), if_neg (by simp [hU'])]
  rw [hf]
  rfl

/-- **C1 (counterexample).** In the mixed layer of
`TestInstaller_InstallMixedSourcesAndLayers` ("same layer -- different
sources": `core/linux` from a binary repo plus AUR `yippee`), the run
installs both — yet no single package-manager invocation covers both the
repo name and the built archive: they are installed by two separate
transactions, contradicting the claimed single combined invocation. -/
theorem single_combined_transaction_counterexample :
    (∃ c ∈ (Install cfgAny baseEnv ⟨[]⟩ [mixedLayer]
        [("yippee", "/testdir")] [] false).1.trace,
      isInstallCmd c = true ∧ "core/linux" ∈ installTargets c) ∧
    (∃ c ∈ (Install cfgAny baseEnv ⟨[]⟩ [mixedLayer]
        [("yippee", "/testdir")] [] false).1.trace,
      isInstallCmd c = true ∧
        "/testdir/yippee.pkg.tar.zst" ∈ installTargets c) ∧
    ¬ (∃ c ∈ (Install cfgAny baseEnv ⟨[]⟩ [mixedLayer]
        [("yippee", "/testdir")] [] false).1.trace,
      isInstallCmd c = true ∧ "core/linux" ∈ installTargets c ∧
        "/testdir/yippee.pkg.tar.zst" ∈ installTargets c) := by
  refine ⟨?_, ?_, ?_⟩ <;> decide

/-- **C1 (amended).** For a layer holding both binary-repo and
source-build entries, on the success path the layer's install
transactions are exactly two separate invocations: one `pacman -S`
covering precisely the repo names qualified by their sync DB, and one
`pacman -U` covering precisely the resolved archive paths of all the
layer's source-build packages; repo names and archives are never
combined into one invocation. -/
theorem layer_issues_separate_repo_and_archive_transactions
    (cfg : Config) (env : Env) (args : Args) (mc : Bool)
    (dirs : List (String × String)) (built : List String) (layer : Layer)
    (hdl : cfg.downloadOnly = false)
    (hemp : (syncPkgsOf layer).isEmpty = false)
    (hsf : env.syncFails (syncTargets layer) = false)
    (hB : ∀ b ∈ basesOf layer, env.buildFails b = false)
    (hneed : args.args.contains "needed" = false)
    (haur : (groupedAur layer).isEmpty = false)
    (hU : env.upgradeFails (archivesOfLayer env layer) = false) :
    (handleLayer cfg env args mc dirs built layer).1.filter isInstallCmd =
      [Cmd.pacmanS (syncExtraArgs cfg args mc) (syncTargets layer),
       Cmd.pacmanU (upgradeExtraArgs args mc) (archivesOfLayer env layer)] ∧
    (∀ p ∈ aurPkgsOf layer, (∃ b, p.2.aurBase = some b) →
      env.archiveOf p.1 ∈ archivesOfLayer env layer) := by
  constructor
  · have hsync := syncPart_eq_success cfg env args mc layer hemp hsf hdl
    have haurp := aurPart_eq_success cfg env args mc dirs built layer hdl
      hB hneed haur hU
    simp only [handleLayer, hsync, haurp]
    have hmk := filter_install_of_makepkg _
      (buildAll_makepkg cfg env args dirs layer (basesOf layer) built)
    simp [List.filter_cons, List.filter_append, filter_install_setReason,
      hmk, isInstallCmd]
  · intro p hp ⟨b, hb⟩
    exact List.mem_map.mpr ⟨p, (mem_groupedAur layer p).mpr ⟨hp, b, hb⟩, rfl⟩

/-- Witness for C1 (amended): the mixed layer gets exactly its
`pacman -S core/linux` and `pacman -U <archive>` transactions. -/
theorem layer_issues_separate_transactions_witness :
    (handleLayer cfgAny baseEnv ⟨[]⟩ false [("yippee", "/testdir")] []
        mixedLayer).1.filter isInstallCmd =
      [Cmd.pacmanS (syncExtraArgs cfgAny ⟨[]⟩ false) (syncTargets mixedLayer),
       Cmd.pacmanU (upgradeExtraArgs ⟨[]⟩ false)
         (archivesOfLayer baseEnv mixedLayer)] :=
  (layer_issues_separate_repo_and_archive_transactions cfgAny baseEnv ⟨[]⟩
    false [("yippee", "/testdir")] [] mixedLayer rfl (by decide) rfl
    (by decide) rfl (by decide) rfl).1

/-! ## Claim C9: install-reason updates -/

theorem mem_insertIfNew (l : List String) (m n : String) :
    n ∈ insertIfNew l m ↔ n ∈ l ∨ n = m := by
  simp only [insertIfNew]
  split
  next hmem =>
    constructor
    · exact Or.inl
    · rintro (h | rfl)
      · exact h
      · exact hmem
  next hmem => simp

theorem insertIfNew_nodup (l : List String) (m : String) (h : l.Nodup) :
    (insertIfNew l m).Nodup := by
  simp only [insertIfNew]
  split
  · exact h
  next hmem =>
    refine List.Nodup.append h (List.nodup_singleton m) ?_
    intro x hx hx'
    rw [List.mem_singleton] at hx'
    subst hx'
    exact hmem hx

theorem mem_insertAllNew (ns : List String) :
    ∀ (l : List String) (n : String),
      n ∈ insertAllNew l ns ↔ n ∈ l ∨ n ∈ ns := by
  induction ns with
  | nil => intro l n; simp [insertAllNew]
  | cons m ms ih =>
    intro l n
    have hstep : insertAllNew l (m :: ms) =
        insertAllNew (insertIfNew l m) ms := rfl
    rw [hstep, ih (insertIfNew l m) n, mem_insertIfNew]
    simp only [List.mem_cons]
    tauto

theorem insertAllNew_nodup (ns : List String) :
    ∀ (l : List String), l.Nodup → (insertAllNew l ns).Nodup := by
  induction ns with
  | nil => exact fun _ h => h
  | cons m ms ih => exact fun l h => ih _ (insertIfNew_nodup l m h)

theorem mem_pkgsOfBase (layer : Layer) (b : String)
    (q : String × InstallInfo) :
    q ∈ pkgsOfBase layer b ↔
      q ∈ layer ∧ q.2.source = Source.aur ∧ q.2.aurBase = some b := by
  simp [pkgsOfBase, aurPkgsOf, List.mem_filter, and_assoc]
  exact fun _ => and_comm

theorem pkgsOfBase_keys_nodup (layer : Layer) (b : String)
    (hk : (layer.map (fun p => p.1)).Nodup) :
    ((pkgsOfBase layer b).map (fun p => p.1)).Nodup := by
  have hs : List.Sublist (pkgsOfBase layer b) layer :=
    (List.filter_sublist _).trans (List.filter_sublist _)
  exact hk.sublist (hs.map (fun p => p.1))

theorem key_inj (layer : Layer) (hk : (layer.map (fun p => p.1)).Nodup)
    {p q : String × InstallInfo} (hp : p ∈ layer) (hq : q ∈ layer)
    (h : p.1 = q.1) : p = q :=
  List.inj_on_of_nodup_map hk hp hq h

theorem buildAll_succ_sources (cfg : Config) (env : Env) (args : Args)
    (dirs : List (String × String)) (layer : Layer) :
    ∀ (bsl : List String) (built : List String),
      ∀ q ∈ (buildAll cfg env args dirs layer built bsl).2.2.2,
        ∃ b ∈ bsl, q ∈ pkgsOfBase layer b := by
  intro bsl
  induction bsl with
  | nil => intro built q hq; simp [buildAll] at hq
  | cons b bs ih =>
    intro built q hq
    simp only [buildAll] at hq
    split at hq
    · rcases List.mem_append.mp hq with h | h
      · exact ⟨b, List.mem_cons_self b bs, h⟩
      · obtain ⟨b', hb', hq'⟩ := ih _ q h
        exact ⟨b', List.mem_cons_of_mem b hb', hq'⟩
    · obtain ⟨b', hb', hq'⟩ := ih _ q hq
      exact ⟨b', List.mem_cons_of_mem b hb', hq'⟩

theorem buildOne_fails (cfg : Config) (env : Env) (args : Args)
    (built : List String) (dir b : String) (bpkgs : Layer) (a : String)
    (hdl : cfg.downloadOnly = false) (hbf : env.buildFails b = true)
    (hneed : args.args.contains "needed" = false)
    (ha : a ∈ env.baseArchives b) (hnb : a ∉ built) :
    (buildOne cfg env args built dir b bpkgs).2.2 = false ∧
    (buildOne cfg env args built dir b bpkgs).2.1 = built := by
  have hnot : ¬ ((cfg.downloadOnly : Prop) ∨ (¬ cfg.rebuild ∧
      ((env.baseArchives b).all (· ∈ built) ∨
        (args.args.contains "needed" ∧
          bpkgs.all (fun p => env.isInstalled p.1 p.2.version))))) := by
    rintro (hd | ⟨_, hor⟩)
    · simp [hdl] at hd
    · rcases hor with hall | ⟨hcont, _⟩
      · have := List.all_eq_true.mp hall a ha
        simp at this
        exact hnb this
      · rw [hneed] at hcont
        exact absurd hcont (by simp)
  simp only [buildOne]
  rw [if_neg hnot]
  exact ⟨by simp [hbf], by simp [hbf]⟩

theorem buildOne_built_sub (cfg : Config) (env : Env) (args : Args)
    (built : List String) (dir b : String) (bpkgs : Layer) :
    ∀ x ∈ (buildOne cfg env args built dir b bpkgs).2.1,
      x ∈ built ∨ x ∈ env.baseArchives b := by
  simp only [buildOne]
  split
  · exact fun x hx => Or.inl hx
  · split
    · exact fun x hx => Or.inl hx
    · intro x hx
      rcases List.mem_append.mp hx with h | h
      · exact Or.inl h
      · exact Or.inr h

theorem group_names_disjoint_failed (layer : Layer)
    (hk : (layer.map (fun p => p.1)).Nodup) (b : String) (bs : List String)
    (hbnin : b ∉ bs) (failed : List String)
    (hsrc : ∀ n ∈ failed, ∃ b' ∈ bs, ∃ q ∈ pkgsOfBase layer b', n = q.1) :
    List.Disjoint ((pkgsOfBase layer b).map (fun p => p.1)) failed := by
  intro n hn hn'
  obtain ⟨q, hq, rfl⟩ := List.mem_map.mp hn
  obtain ⟨b', hb', q', hq', heq⟩ := hsrc q.1 hn'
  have hqq' : q = q' := key_inj layer hk
    ((mem_pkgsOfBase layer b q).mp hq).1
    ((mem_pkgsOfBase layer b' q').mp hq').1 heq
  have h1 := ((mem_pkgsOfBase layer b q).mp hq).2.2
  have h2 := ((mem_pkgsOfBase layer b' q').mp hq').2.2
  rw [hqq'] at h1
  have hbb : b = b' := by
    have h3 := h1.symm.trans h2
    injection h3
  exact hbnin (hbb ▸ hb')

/-- Core induction for a failing base `B`: walking the bases of a layer
with `B`'s build failing (its archive `a` neither on disk nor producible
by any other base, and the `needed` shortcut off), the failed-name list
collects exactly per-group package names without duplicates, contains
every package of `B`'s group, and no package of base `B` survives into
the successfully-built set. -/
theorem buildAll_failedB (cfg : Config) (env : Env) (args : Args)
    (dirs : List (String × String)) (layer : Layer) (B a : String)
    (hdl : cfg.downloadOnly = false) (hbf : env.buildFails B = true)
    (hneed : args.args.contains "needed" = false)
    (ha : a ∈ env.baseArchives B)
    (hk : (layer.map (fun p => p.1)).Nodup) :
    ∀ (bsl : List String), bsl.Nodup →
      (∀ b' ∈ bsl, b' ≠ B → a ∉ env.baseArchives b') →
      ∀ built, a ∉ built →
      ((∀ n ∈ (buildAll cfg env args dirs layer built bsl).2.2.1,
          ∃ b' ∈ bsl, ∃ q ∈ pkgsOfBase layer b', n = q.1) ∧
       (buildAll cfg env args dirs layer built bsl).2.2.1.Nodup ∧
       (B ∈ bsl → ∀ p ∈ pkgsOfBase layer B,
          p.1 ∈ (buildAll cfg env args dirs layer built bsl).2.2.1) ∧
       (B ∈ bsl → ∀ q ∈ (buildAll cfg env args dirs layer built bsl).2.2.2,
          q.2.aurBase ≠ some B)) := by
  intro bsl
  induction bsl with
  | nil =>
    intro _ _ built _
    exact ⟨fun n hn => absurd hn (List.not_mem_nil n), List.nodup_nil,
      fun h => absurd h (List.not_mem_nil B),
      fun h => absurd h (List.not_mem_nil B)⟩
  | cons b bs ih =>
    intro hnd hoth built hnb
    obtain ⟨hbnin, hnd'⟩ := List.nodup_cons.mp hnd
    have hoth' : ∀ b' ∈ bs, b' ≠ B → a ∉ env.baseArchives b' :=
      fun b' hb' => hoth b' (List.mem_cons_of_mem b hb')
    by_cases hbB : b = B
    · subst hbB
      obtain ⟨hok, hbuilt⟩ := buildOne_fails cfg env args built (dirOf dirs b)
        b (pkgsOfBase layer b) a hdl hbf hneed ha hnb
      have e1 : buildAll cfg env args dirs layer built (b :: bs) =
          ((buildOne cfg env args built (dirOf dirs b) b
              (pkgsOfBase layer b)).1 ++
            (buildAll cfg env args dirs layer built bs).1,
           (buildAll cfg env args dirs layer built bs).2.1,
           (pkgsOfBase layer b).map (fun p => p.1) ++
            (buildAll cfg env args dirs layer built bs).2.2.1,
           (buildAll cfg env args dirs layer built bs).2.2.2) := by
        simp only [buildAll]
        rw [hbuilt, hok, if_neg (by simp)]
      obtain ⟨ih1, ih2, ih3, ih4⟩ := ih hnd' hoth' built hnb
      rw [e1]
      refine ⟨?_, ?_, ?_, ?_⟩
      · intro n hn
        rcases List.mem_append.mp hn with h | h
        · obtain ⟨q, hq, rfl⟩ := List.mem_map.mp h
          exact ⟨b, List.mem_cons_self b bs, q, hq, rfl⟩
        · obtain ⟨b', hb', q, hq, rfl⟩ := ih1 n h
          exact ⟨b', List.mem_cons_of_mem b hb', q, hq, rfl⟩
      · exact List.Nodup.append (pkgsOfBase_keys_nodup layer b hk) ih2
          (group_names_disjoint_failed layer hk b bs hbnin _ ih1)
      · intro _ p hp
        exact List.mem_append.mpr (Or.inl (List.mem_map.mpr ⟨p, hp, rfl⟩))
      · intro _ q hq
        obtain ⟨b', hb', hq'⟩ :=
          buildAll_succ_sources cfg env args dirs layer bs built q hq
        have hbase := ((mem_pkgsOfBase layer b' q).mp hq').2.2
        rw [hbase]
        intro hcontra
        have hbb : b' = b := by injection hcontra
        exact hbnin (hbb ▸ hb')
    · have hanb : a ∉ env.baseArchives b :=
        hoth b (List.mem_cons_self b bs) hbB
      have hnb' : a ∉ (buildOne cfg env args built (dirOf dirs b) b
          (pkgsOfBase layer b)).2.1 := by
        intro hmem
        rcases buildOne_built_sub cfg env args built (dirOf dirs b) b
          (pkgsOfBase layer b) a hmem with h | h
        · exact hnb h
        · exact hanb h
      obtain ⟨ih1, ih2, ih3, ih4⟩ := ih hnd' hoth' _ hnb'
      have hBbs : B ∈ b :: bs → B ∈ bs := fun h => by
        rcases List.mem_cons.mp h with h | h
        · exact absurd h.symm hbB
        · exact h
      cases hres : (buildOne cfg env args built (dirOf dirs b) b
          (pkgsOfBase layer b)).2.2 with
      | true =>
        have e1 : buildAll cfg env args dirs layer built (b :: bs) =
            ((buildOne cfg env args built (dirOf dirs b) b
                (pkgsOfBase layer b)).1 ++
              (buildAll cfg env args dirs layer
                (buildOne cfg env args built (dirOf dirs b) b
                  (pkgsOfBase layer b)).2.1 bs).1,
             (buildAll cfg env args dirs layer
                (buildOne cfg env args built (dirOf dirs b) b
                  (pkgsOfBase layer b)).2.1 bs).2.1,
             (buildAll cfg env args dirs layer
                (buildOne cfg env args built (dirOf dirs b) b
                  (pkgsOfBase layer b)).2.1 bs).2.2.1,
             pkgsOfBase layer b ++
              (buildAll cfg env args dirs layer
                (buildOne cfg env args built (dirOf dirs b) b
                  (pkgsOfBase layer b)).2.1 bs).2.2.2) := by
          simp only [buildAll]
          rw [hres, if_pos rfl]
        rw [e1]
        refine ⟨?_, ih2, ?_, ?_⟩
        · intro n hn
          obtain ⟨b', hb', q, hq, rfl⟩ := ih1 n hn
          exact ⟨b', List.mem_cons_of_mem b hb', q, hq, rfl⟩
        · intro hB p hp
          exact ih3 (hBbs hB) p hp
        · intro hB q hq
          rcases List.mem_append.mp hq with h | h
          · have hbase := ((mem_pkgsOfBase layer b q).mp h).2.2
            rw [hbase]
            intro hcontra
            have hbb : b = B := by injection hcontra
            exact hbB hbb
          · exact ih4 (hBbs hB) q h
      | false =>
        have e1 : buildAll cfg env args dirs layer built (b :: bs) =
            ((buildOne cfg env args built (dirOf dirs b) b
                (pkgsOfBase layer b)).1 ++
              (buildAll cfg env args dirs layer
                (buildOne cfg env args built (dirOf dirs b) b
                  (pkgsOfBase layer b)).2.1 bs).1,
             (buildAll cfg env args dirs layer
                (buildOne cfg env args built (dirOf dirs b) b
                  (pkgsOfBase layer b)).2.1 bs).2.1,
             (pkgsOfBase layer b).map (fun p => p.1) ++
              (buildAll cfg env args dirs layer
                (buildOne cfg env args built (dirOf dirs b) b
                  (pkgsOfBase layer b)).2.1 bs).2.2.1,
             (buildAll cfg env args dirs layer
                (buildOne cfg env args built (dirOf dirs b) b
                  (pkgsOfBase layer b)).2.1 bs).2.2.2) := by
          simp only [buildAll]
          rw [hres, if_neg (by simp)]
        rw [e1]
        refine ⟨?_, ?_, ?_, ?_⟩
        · intro n hn
          rcases List.mem_append.mp hn with h | h
          · obtain ⟨q, hq, rfl⟩ := List.mem_map.mp h
            exact ⟨b, List.mem_cons_self b bs, q, hq, rfl⟩
          · obtain ⟨b', hb', q, hq, rfl⟩ := ih1 n h
            exact ⟨b', List.mem_cons_of_mem b hb', q, hq, rfl⟩
        · exact List.Nodup.append (pkgsOfBase_keys_nodup layer b hk) ih2
            (group_names_disjoint_failed layer hk b bs hbnin _ ih1)
        · intro hB p hp
          exact List.mem_append.mpr (Or.inr (ih3 (hBbs hB) p hp))
        · intro hB q hq
          exact ih4 (hBbs hB) q hq

theorem syncPart_shape (cfg : Config) (env : Env) (args : Args) (mc : Bool)
    (layer : Layer) :
    ∀ c ∈ (syncPart cfg env args mc layer).1,
      (∃ ea ts, c = Cmd.pacmanS ea ts) ∨ (∃ b ts, c = Cmd.pacmanD b ts) := by
  intro c hc
  cases hemp : (syncPkgsOf layer).isEmpty with
  | true => simp [syncPart, hemp] at hc
  | false =>
    cases hsf : env.syncFails ((syncPkgsOf layer).map
        (fun p => qualifiedName p.1 p.2)) with
    | true =>
      simp [syncPart, hemp, hsf] at hc
      exact Or.inl ⟨_, _, hc⟩
    | false =>
      cases hdl : cfg.downloadOnly with
      | true =>
        simp [syncPart, hemp, hsf, hdl] at hc
        exact Or.inl ⟨_, _, hc⟩
      | false =>
        simp [syncPart, hemp, hsf, hdl] at hc
        rcases hc with rfl | hc
        · exact Or.inl ⟨_, _, rfl⟩
        · obtain ⟨b, ts, rfl⟩ := setReasonCmds_mem env _ _ c hc
          exact Or.inr ⟨b, ts, rfl⟩

/-- Any archive transaction a layer issues carries exactly the archives
of the included successfully-built packages. -/
theorem handleLayer_pacmanU_targets (cfg : Config) (env : Env) (args : Args)
    (mc : Bool) (dirs : List (String × String)) (built : List String)
    (layer : Layer) {ea : List String} {as : List String}
    (h : Cmd.pacmanU ea as ∈ (handleLayer cfg env args mc dirs built layer).1) :
    as = (includedPkgs env args (buildAll cfg env args dirs layer built
        (basesOf layer)).2.2.2).map (fun p => env.archiveOf p.1) := by
  have hsyncU : ∀ c ∈ (syncPart cfg env args mc layer).1,
      c ≠ Cmd.pacmanU ea as := by
    intro c hc
    rcases syncPart_shape cfg env args mc layer c hc with
      ⟨ea', ts, rfl⟩ | ⟨b, ts, rfl⟩ <;>
      exact fun hcon => Cmd.noConfusion hcon
  simp only [handleLayer] at h
  split at h
  next e heq => exact absurd rfl (hsyncU _ h)
  next heq =>
    rcases List.mem_append.mp h with h1 | h2
    · exact absurd rfl (hsyncU _ h1)
    · simp only [aurPart] at h2
      split at h2
      · have hmk := buildAll_makepkg cfg env args dirs layer
          (basesOf layer) built _ h2
        simp [isMakepkg] at hmk
      · split at h2
        · have hmk := buildAll_makepkg cfg env args dirs layer
            (basesOf layer) built _ h2
          simp [isMakepkg] at hmk
        · split at h2
          · rcases List.mem_append.mp h2 with h3 | h3
            · have hmk := buildAll_makepkg cfg env args dirs layer
                (basesOf layer) built _ h3
              simp [isMakepkg] at hmk
            · have heq2 := List.mem_singleton.mp h3
              injection heq2 with e1 e2
          · rcases List.mem_append.mp h2 with h3 | h3
            · have hmk := buildAll_makepkg cfg env args dirs layer
                (basesOf layer) built _ h3
              simp [isMakepkg] at hmk
            · rcases List.mem_cons.mp h3 with heq2 | h4
              · injection heq2 with e1 e2
              · obtain ⟨b, ts, hDeq⟩ := setReasonCmds_mem env _ _ _ h4
                exact Cmd.noConfusion hDeq

theorem syncPart_no_err (cfg : Config) (env : Env) (args : Args) (mc : Bool)
    (layer : Layer) (hsf : env.syncFails (syncTargets layer) = false) :
    (syncPart cfg env args mc layer).2 = none := by
  have hsf' : env.syncFails ((syncPkgsOf layer).map
      (fun p => qualifiedName p.1 p.2)) = false := hsf
  cases hemp : (syncPkgsOf layer).isEmpty with
  | true => simp [syncPart, hemp]
  | false =>
    cases hdl2 : cfg.downloadOnly with
    | true => simp [syncPart, hemp, hsf', hdl2]
    | false => simp [syncPart, hemp, hsf', hdl2]

theorem handleLayer_failed_eq (cfg : Config) (env : Env) (args : Args)
    (mc : Bool) (dirs : List (String × String)) (built : List String)
    (layer : Layer) (hsf : env.syncFails (syncTargets layer) = false) :
    (handleLayer cfg env args mc dirs built layer).2.2.1 =
      (buildAll cfg env args dirs layer built (basesOf layer)).2.2.1 := by
  have hs := syncPart_no_err cfg env args mc layer hsf
  simp only [handleLayer]
  split
  next e heq => rw [hs] at heq; cases heq
  next heq =>
    show (aurPart cfg env args mc dirs built layer).2.2.1 = _
    simp only [aurPart]
    split
    · rfl
    · split
      · rfl
      · split
        · rfl
        · rfl

theorem install_single_layer (cfg : Config) (env : Env) (args : Args)
    (dirs : List (String × String)) (ex : List String) (mc : Bool)
    (layer : Layer) :
    (Install cfg env args [layer] dirs ex mc).1 =
      ⟨(handleLayer cfg env args mc dirs [] layer).1,
       insertAllNew [] (handleLayer cfg env args mc dirs [] layer).2.2.1,
       (handleLayer cfg env args mc dirs [] layer).2.1⟩ := by
  show (installGo cfg env args mc dirs ⟨[], [], []⟩ [layer]).1 = _
  simp only [installGo]
  split <;> simp [installGo]

/-- If archive `a` belongs only to the failing base `B` among the walked
bases and is not on disk, it never reaches the disk state. -/
theorem buildAll_built_fresh (cfg : Config) (env : Env) (args : Args)
    (dirs : List (String × String)) (layer : Layer) (B a : String)
    (hdl : cfg.downloadOnly = false) (hbf : env.buildFails B = true)
    (hneed : args.args.contains "needed" = false)
    (ha : a ∈ env.baseArchives B) :
    ∀ (bsl : List String), (∀ b' ∈ bsl, b' ≠ B → a ∉ env.baseArchives b') →
      ∀ built, a ∉ built →
      a ∉ (buildAll cfg env args dirs layer built bsl).2.1 := by
  intro bsl
  induction bsl with
  | nil => intro _ built hnb; exact hnb
  | cons b bs ih =>
    intro hoth built hnb
    have hoth' : ∀ b' ∈ bs, b' ≠ B → a ∉ env.baseArchives b' :=
      fun b' hb' => hoth b' (List.mem_cons_of_mem b hb')
    have hnb' : a ∉ (buildOne cfg env args built (dirOf dirs b) b
        (pkgsOfBase layer b)).2.1 := by
      by_cases hbB : b = B
      · subst hbB
        rw [(buildOne_fails cfg env args built (dirOf dirs b) b
          (pkgsOfBase layer b) a hdl hbf hneed ha hnb).2]
        exact hnb
      · intro hmem
        rcases buildOne_built_sub cfg env args built (dirOf dirs b) b
          (pkgsOfBase layer b) a hmem with h | h
        · exact hnb h
        · exact hoth b (List.mem_cons_self b bs) hbB h
    have hrec := ih hoth' _ hnb'
    simp only [buildAll]
    split
    · exact hrec
    · exact hrec

/-- A layer leaves the disk state either untouched (repo transaction
failed) or exactly as its base walk left it. -/
theorem handleLayer_built_cases (cfg : Config) (env : Env) (args : Args)
    (mc : Bool) (dirs : List (String × String)) (built : List String)
    (layer : Layer) :
    (handleLayer cfg env args mc dirs built layer).2.1 = built ∨
    (handleLayer cfg env args mc dirs built layer).2.1 =
      (buildAll cfg env args dirs layer built (basesOf layer)).2.1 := by
  simp only [handleLayer]
  split
  · exact Or.inl rfl
  · refine Or.inr ?_
    show (aurPart cfg env args mc dirs built layer).2.1 = _
    simp only [aurPart]
    split
    · rfl
    · split
      · rfl
      · split
        · rfl
        · rfl

/-- An error-free layer records exactly its base walk's failed package
names. -/
theorem handleLayer_failed_of_no_err (cfg : Config) (env : Env) (args : Args)
    (mc : Bool) (dirs : List (String × String)) (built : List String)
    (layer : Layer)
    (hne : (handleLayer cfg env args mc dirs built layer).2.2.2 = none) :
    (handleLayer cfg env args mc dirs built layer).2.2.1 =
      (buildAll cfg env args dirs layer built (basesOf layer)).2.2.1 := by
  have hs : (syncPart cfg env args mc layer).2 = none := by
    cases hsv : (syncPart cfg env args mc layer).2 with
    | none => rfl
    | some e => simp [handleLayer, hsv] at hne
  simp only [handleLayer]
  split
  next e heq => rw [hs] at heq; cases heq
  next heq =>
    show (aurPart cfg env args mc dirs built layer).2.2.1 = _
    simp only [aurPart]
    split
    · rfl
    · split
      · rfl
      · split
        · rfl
        · rfl

/-- Run-level induction for a failing base `B`: along any layer list,
with `B`'s archive `a` initially fresh and producible by no other listed
base, the accumulated failed-name list stays duplicate-free and
monotone; in an error-free run it collects every package of `B`'s group
of every processed layer; every archive transaction in the emitted trace
targets the included built packages of some processed layer entered with
`a` still fresh; and `a` never reaches the disk state. -/
theorem installGo_failedB (cfg : Config) (env : Env) (args : Args)
    (mc : Bool) (dirs : List (String × String)) (B a : String)
    (hdl : cfg.downloadOnly = false) (hbf : env.buildFails B = true)
    (hneed : args.args.contains "needed" = false)
    (ha : a ∈ env.baseArchives B) :
    ∀ (ls : List Layer) (st : St),
      (∀ L ∈ ls, (L.map (fun p => p.1)).Nodup) →
      (∀ L ∈ ls, ∀ b' ∈ basesOf L, b' ≠ B → a ∉ env.baseArchives b') →
      a ∉ st.built → st.failed.Nodup →
      ((installGo cfg env args mc dirs st ls).1.failed.Nodup ∧
       (∀ n ∈ st.failed, n ∈ (installGo cfg env args mc dirs st ls).1.failed) ∧
       ((installGo cfg env args mc dirs st ls).2 = none →
         ∀ L ∈ ls, ∀ p ∈ pkgsOfBase L B,
           p.1 ∈ (installGo cfg env args mc dirs st ls).1.failed) ∧
       (∀ ea as, Cmd.pacmanU ea as ∈
           (installGo cfg env args mc dirs st ls).1.trace →
         Cmd.pacmanU ea as ∈ st.trace ∨
         ∃ L ∈ ls, ∃ blt, a ∉ blt ∧
           as = (includedPkgs env args
             (buildAll cfg env args dirs L blt (basesOf L)).2.2.2).map
               (fun p => env.archiveOf p.1)) ∧
       a ∉ (installGo cfg env args mc dirs st ls).1.built) := by
  intro ls
  induction ls with
  | nil =>
    intro st _ _ hnb hnd
    refine ⟨hnd, fun n hn => hn, ?_, ?_, hnb⟩
    · intro _ L hL
      exact absurd hL (List.not_mem_nil L)
    · intro ea as hmem
      exact Or.inl hmem
  | cons L ls ih =>
    intro st hks hoth hnb hnd
    have hksL : (L.map (fun p => p.1)).Nodup := hks L (List.mem_cons_self L ls)
    have hothL : ∀ b' ∈ basesOf L, b' ≠ B → a ∉ env.baseArchives b' :=
      hoth L (List.mem_cons_self L ls)
    have hks' : ∀ L' ∈ ls, (L'.map (fun p => p.1)).Nodup :=
      fun L' hL' => hks L' (List.mem_cons_of_mem L hL')
    have hoth' : ∀ L' ∈ ls, ∀ b' ∈ basesOf L', b' ≠ B →
        a ∉ env.baseArchives b' :=
      fun L' hL' => hoth L' (List.mem_cons_of_mem L hL')
    have hnbr : a ∉ (handleLayer cfg env args mc dirs st.built L).2.1 := by
      rcases handleLayer_built_cases cfg env args mc dirs st.built L with h | h
      · rw [h]; exact hnb
      · rw [h]
        exact buildAll_built_fresh cfg env args dirs L B a hdl hbf hneed ha
          (basesOf L) hothL st.built hnb
    have hndr : (insertAllNew st.failed
        (handleLayer cfg env args mc dirs st.built L).2.2.1).Nodup :=
      insertAllNew_nodup _ st.failed hnd
    cases hr : (handleLayer cfg env args mc dirs st.built L).2.2.2 with
    | some e =>
      have heq : installGo cfg env args mc dirs st (L :: ls) =
          (⟨st.trace ++ (handleLayer cfg env args mc dirs st.built L).1,
            insertAllNew st.failed
              (handleLayer cfg env args mc dirs st.built L).2.2.1,
            (handleLayer cfg env args mc dirs st.built L).2.1⟩, some e) := by
        simp only [installGo, hr]
      rw [heq]
      refine ⟨hndr, ?_, ?_, ?_, hnbr⟩
      · intro n hn
        exact (mem_insertAllNew _ st.failed n).mpr (Or.inl hn)
      · intro habs
        exact absurd habs (by simp)
      · intro ea as hmem
        rcases List.mem_append.mp hmem with h | h
        · exact Or.inl h
        · refine Or.inr ⟨L, List.mem_cons_self L ls, st.built, hnb, ?_⟩
          exact handleLayer_pacmanU_targets cfg env args mc dirs st.built L h
    | none =>
      have heq : installGo cfg env args mc dirs st (L :: ls) =
          installGo cfg env args mc dirs
            ⟨st.trace ++ (handleLayer cfg env args mc dirs st.built L).1,
             insertAllNew st.failed
               (handleLayer cfg env args mc dirs st.built L).2.2.1,
             (handleLayer cfg env args mc dirs st.built L).2.1⟩ ls := by
        simp only [installGo, hr]
      obtain ⟨ih1, ih2, ih3, ih4, ih5⟩ := ih
        ⟨st.trace ++ (handleLayer cfg env args mc dirs st.built L).1,
         insertAllNew st.failed
           (handleLayer cfg env args mc dirs st.built L).2.2.1,
         (handleLayer cfg env args mc dirs st.built L).2.1⟩
        hks' hoth' hnbr hndr
      rw [heq]
      refine ⟨ih1, ?_, ?_, ?_, ih5⟩
      · intro n hn
        exact ih2 n ((mem_insertAllNew _ st.failed n).mpr (Or.inl hn))
      · intro hE L' hL' p hp
        rcases List.mem_cons.mp hL' with hLL | hL'
        · rw [hLL] at hp
          have hBmem : B ∈ basesOf L := by
            have h1 := (mem_pkgsOfBase L B p).mp hp
            refine List.mem_dedup.mpr (List.mem_filterMap.mpr ⟨p, ?_, h1.2.2⟩)
            exact List.mem_filter.mpr ⟨h1.1, by simp [h1.2.1]⟩
          obtain ⟨m1, m2, m3, m4⟩ := buildAll_failedB cfg env args dirs L B a
            hdl hbf hneed ha hksL (basesOf L) (List.nodup_dedup _) hothL
            st.built hnb
          have hfe := handleLayer_failed_of_no_err cfg env args mc dirs
            st.built L hr
          refine ih2 p.1 ((mem_insertAllNew _ st.failed p.1).mpr (Or.inr ?_))
          rw [hfe]
          exact m3 hBmem p hp
        · exact ih3 hE L' hL' p hp
      · intro ea as hmem
        rcases ih4 ea as hmem with h | ⟨L', hL', blt, hfr, hAs⟩
        · rcases List.mem_append.mp h with h1 | h1
          · exact Or.inl h1
          · refine Or.inr ⟨L, List.mem_cons_self L ls, st.built, hnb, ?_⟩
            exact handleLayer_pacmanU_targets cfg env args mc dirs st.built
              L h1
        · exact Or.inr ⟨L', List.mem_cons_of_mem L hL', blt, hfr, hAs⟩

/-- **C3 (counterexample).** One layer with the two split packages
`jellyfin-server` and `jellyfin-web` sharing the failing base
`jellyfin` (plus an unrelated `vlc`): the claim says the base appears
exactly once in `CompileFailedAndIgnored`'s list, but the list is
`["jellyfin-server", "jellyfin-web"]` — the failed package names — and
`"jellyfin"` does not appear at all. -/
def jellyfinInfo (r : Reason) : InstallInfo :=
  { source := .aur, reason := r, version := "10.8.4-1",
    srcinfoPath := some "/testdir/.SRCINFO", aurBase := some "jellyfin" }

def envJellyfinFail : Env :=
  { baseEnv with buildFails := fun b => b == "jellyfin" }

def vlcInfo : InstallInfo :=
  { source := .aur, reason := .explicit, version := "3.0-1",
    srcinfoPath := some "/testdir/.SRCINFO", aurBase := some "vlc" }

def splitFailLayer : Layer :=
  [("jellyfin-server", jellyfinInfo .dep),
   ("jellyfin-web", jellyfinInfo .dep),
   ("vlc", vlcInfo)]

theorem failed_base_count_counterexample :
    ((CompileFailedAndIgnored (Install cfgAny envJellyfinFail ⟨[]⟩
        [splitFailLayer] [("jellyfin", "/testdir"), ("vlc", "/testdir")]
        [] false).1).1 = ["jellyfin-server", "jellyfin-web"]) ∧
    ((CompileFailedAndIgnored (Install cfgAny envJellyfinFail ⟨[]⟩
        [splitFailLayer] [("jellyfin", "/testdir"), ("vlc", "/testdir")]
        [] false).1).1.count "jellyfin" ≠ 1) := by
  refine ⟨?_, ?_⟩ <;> decide

/-- **C3 (amended).** For every base `B` whose build genuinely fails
during an error-free run of `Install` over any layer list (its archives
absent and produced by no listed base but `B`, the `needed` shortcut
off), every package sharing `AURBase = B` — in whichever layer it sits —
is excluded from every archive install transaction of the run, and each
such package's *name* appears exactly once in the list
`CompileFailedAndIgnored` returns: the list holds the failed packages'
names, so `B` itself appears only if a failed package is literally
named `B`. -/
theorem failed_base_excluded_and_recorded_once (cfg : Config) (env : Env)
    (args : Args) (targets : List Layer) (dirs : List (String × String))
    (ex : List String) (mc : Bool) (layer : Layer) (B : String)
    (hmem : layer ∈ targets)
    (hdl : cfg.downloadOnly = false)
    (hbf : env.buildFails B = true)
    (hneed : args.args.contains "needed" = false)
    (hks : ∀ L ∈ targets, (L.map (fun p => p.1)).Nodup)
    (ha : ∃ a ∈ env.baseArchives B, ∀ L ∈ targets, ∀ b' ∈ basesOf L,
      b' ≠ B → a ∉ env.baseArchives b')
    (hdist : ∀ p ∈ pkgsOfBase layer B, ∀ L ∈ targets, ∀ q ∈ aurPkgsOf L,
      q.2.aurBase ≠ some B → env.archiveOf q.1 ≠ env.archiveOf p.1)
    (hE : (Install cfg env args targets dirs ex mc).2 = none) :
    ∀ p ∈ pkgsOfBase layer B,
      (CompileFailedAndIgnored
          (Install cfg env args targets dirs ex mc).1).1.count p.1 = 1 ∧
      (∀ ea as, Cmd.pacmanU ea as ∈
          (Install cfg env args targets dirs ex mc).1.trace →
        env.archiveOf p.1 ∉ as) := by
  intro p hp
  obtain ⟨a, haB, hoth⟩ := ha
  have hksR : ∀ L ∈ targets.reverse, (L.map (fun p => p.1)).Nodup :=
    fun L hL => hks L (List.mem_reverse.mp hL)
  have hothR : ∀ L ∈ targets.reverse, ∀ b' ∈ basesOf L, b' ≠ B →
      a ∉ env.baseArchives b' :=
    fun L hL => hoth L (List.mem_reverse.mp hL)
  obtain ⟨m1, m2, m3, m4, m5⟩ := installGo_failedB cfg env args mc dirs B a
    hdl hbf hneed haB targets.reverse ⟨[], [], []⟩ hksR hothR
    (List.not_mem_nil a) List.nodup_nil
  have hImem : p.1 ∈ (Install cfg env args targets dirs ex mc).1.failed :=
    m3 hE layer (List.mem_reverse.mpr hmem) p hp
  have hcnt : (Install cfg env args targets dirs ex mc).1.failed.count p.1
      = 1 :=
    List.count_eq_one_of_mem m1 hImem
  have hne : (Install cfg env args targets dirs ex mc).1.failed.isEmpty
      = false := by
    cases hfl : (Install cfg env args targets dirs ex mc).1.failed with
    | nil => rw [hfl] at hImem; cases hImem
    | cons x l => rfl
  have hCF : (CompileFailedAndIgnored
      (Install cfg env args targets dirs ex mc).1).1 =
      (Install cfg env args targets dirs ex mc).1.failed := by
    simp [CompileFailedAndIgnored, hne]
  refine ⟨by rw [hCF]; exact hcnt, ?_⟩
  intro ea as hmemU hin
  rcases m4 ea as hmemU with h | ⟨L, hL, blt, hfr, hAs⟩
  · exact absurd h (List.not_mem_nil _)
  · rw [hAs] at hin
    obtain ⟨q, hq, heq⟩ := List.mem_map.mp hin
    have hq' : q ∈ (buildAll cfg env args dirs L blt (basesOf L)).2.2.2 :=
      List.mem_of_mem_filter hq
    obtain ⟨b', hb', hqb⟩ := buildAll_succ_sources cfg env args dirs L
      (basesOf L) blt q hq'
    have hqbase : q.2.aurBase = some b' := ((mem_pkgsOfBase L b' q).mp hqb).2.2
    have hqaur : q ∈ aurPkgsOf L := (List.mem_filter.mp hqb).1
    by_cases hb'B : b' = B
    · subst hb'B
      obtain ⟨n1, n2, n3, n4⟩ := buildAll_failedB cfg env args dirs L b' a
        hdl hbf hneed haB (hksR L hL) (basesOf L) (List.nodup_dedup _)
        (hothR L hL) blt hfr
      exact absurd hqbase (n4 hb' q hq')
    · have hne2 : q.2.aurBase ≠ some B := by
        rw [hqbase]
        intro hcon
        injection hcon with h
        exact hb'B h
      exact hdist p hp L (List.mem_reverse.mp hL) q hqaur hne2 heq

/-- Two-layer run of the shape of `TestInstaller_CompileFailed` "two
layers": `bob` (base `yippee`) in the outer layer, `yippee` and an
unrelated `vlc` in the dependency layer, every build of base `yippee`
failing. -/
def twoLayerTargets : List Layer :=
  [[("bob", bobInfo)], [("yippee", yippeeInfo), ("vlc", vlcInfo)]]

/-- Witness for C3 (amended): in the two-layer failing-base run, `bob`
(base `yippee`, outer layer) is recorded exactly once and its archive
appears in no `pacman -U` invocation of the whole run — even though the
run does issue one for `vlc`. -/
theorem failed_base_excluded_and_recorded_once_witness :
    (CompileFailedAndIgnored (Install cfgAny envBuildFail ⟨[]⟩
        twoLayerTargets [("yippee", "/testdir"), ("vlc", "/testdir")]
        [] false).1).1.count "bob" = 1 ∧
    (∀ ea as, Cmd.pacmanU ea as ∈
        (Install cfgAny envBuildFail ⟨[]⟩ twoLayerTargets
          [("yippee", "/testdir"), ("vlc", "/testdir")]
          [] false).1.trace →
      envBuildFail.archiveOf "bob" ∉ as) :=
  failed_base_excluded_and_recorded_once cfgAny envBuildFail ⟨[]⟩
    twoLayerTargets [("yippee", "/testdir"), ("vlc", "/testdir")] [] false
    [("bob", bobInfo)] "yippee" (by decide) rfl (by decide) rfl (by decide)
    ⟨"/testdir/yippee.pkg.tar.zst", by decide, by decide⟩ (by decide)
    rfl ("bob", bobInfo) (by decide)

/-! ## Claim C4: build skip policy of the build driver -/

/-- **C4.** With rebuild not forced and every archive of the base already
on disk, the build driver performs zero full-build invocations, succeeds,
and leaves the disk state unchanged (the existing archives are used);
with rebuild forced it performs exactly one full-build invocation,
archives present or not. -/
theorem build_driver_skip_and_rebuild (cfg : Config) (env : Env)
    (args : Args) (built : List String) (dir b : String) (bpkgs : Layer)
    (hdl : cfg.downloadOnly = false) :
    (cfg.rebuild = false →
      (env.baseArchives b).all (· ∈ built) = true →
      ((buildOne cfg env args built dir b bpkgs).1.countP isFullBuild = 0 ∧
       (buildOne cfg env args built dir b bpkgs).2.2 = true ∧
       (buildOne cfg env args built dir b bpkgs).2.1 = built)) ∧
    (cfg.rebuild = true →
      (buildOne cfg env args built dir b bpkgs).1.countP isFullBuild = 1) := by
  constructor
  · intro hr hb
    have hskip : (¬ cfg.rebuild ∧
        ((env.baseArchives b).all (· ∈ built) ∨
          (args.args.contains "needed" ∧
            bpkgs.all (fun p => env.isInstalled p.1 p.2.version)))) :=
      ⟨by simp [hr], Or.inl (by exact_mod_cast hb)⟩
    simp only [buildOne]
    rw [if_pos (Or.inr hskip)]
    refine ⟨?_, rfl, rfl⟩
    simp [List.countP_cons, isFullBuild, mem_nobuild_refreshArgs,
      mem_nobuild_noBuildArgs]
  · intro hr
    have hnot : ¬ ((cfg.downloadOnly : Prop) ∨ (¬ cfg.rebuild ∧
        ((env.baseArchives b).all (· ∈ built) ∨
          (args.args.contains "needed" ∧
            bpkgs.all (fun p => env.isInstalled p.1 p.2.version))))) := by
      rintro (hd | ⟨hnr, _⟩)
      · simp [hdl] at hd
      · exact hnr (by simp [hr])
    simp only [buildOne]
    rw [if_neg hnot]
    cases hbf : env.buildFails b <;>
      simp [hbf, List.countP_cons, isFullBuild, mem_nobuild_refreshArgs,
        not_mem_nobuild_fullBuildArgs]

/-- Witness for C4: a base whose single archive is on disk is not rebuilt
under `RebuildModeNo`, and is fully rebuilt exactly once under forced
rebuild. -/
theorem build_driver_skip_and_rebuild_witness :
    (buildOne cfgAny baseEnv ⟨[]⟩ ["/testdir/yippee.pkg.tar.zst"]
      "/testdir" "yippee" [("yippee", yippeeInfo)]).1.countP isFullBuild = 0 ∧
    (buildOne ⟨TargetMode.any, true, false, false⟩ baseEnv ⟨[]⟩ []
      "/testdir" "yippee" [("yippee", yippeeInfo)]).1.countP isFullBuild = 1 := by
  constructor
  · exact ((build_driver_skip_and_rebuild cfgAny baseEnv ⟨[]⟩
      ["/testdir/yippee.pkg.tar.zst"] "/testdir" "yippee"
      [("yippee", yippeeInfo)] rfl).1 rfl (by decide)).1
  · exact (build_driver_skip_and_rebuild ⟨TargetMode.any, true, false, false⟩
      baseEnv ⟨[]⟩ [] "/testdir" "yippee" [("yippee", yippeeInfo)] rfl).2 rfl

/-! ## Claim C10: upgrade-argument stripping in AUR-only mode -/

/-- **C10.** The repo-package transaction of a layer is a `pacman -S`
carrying the forwarded invocation arguments; in AUR-only target mode the
`u`/`upgrades` arguments are removed from them, in every other mode the
arguments are forwarded unchanged. -/
theorem sync_install_upgrade_args (cfg : Config) (env : Env) (args : Args)
    (mc : Bool) (layer : Layer)
    (h : (syncPkgsOf layer).isEmpty = false) :
    ((syncPart cfg env args mc layer).1.head? =
      some (Cmd.pacmanS (syncExtraArgs cfg args mc)
        ((syncPkgsOf layer).map (fun p => qualifiedName p.1 p.2)))) ∧
    (cfg.mode = TargetMode.aurOnly →
      "u" ∉ syncExtraArgs cfg args mc ∧
      "upgrades" ∉ syncExtraArgs cfg args mc) ∧
    (cfg.mode ≠ TargetMode.aurOnly →
      syncExtraArgs cfg args mc =
        args.args ++ (if mc then [] else ["--noconfirm"])) := by
  refine ⟨?_, ?_, ?_⟩
  · simp only [syncPart]
    rw [h, if_neg (by simp : ¬ (false = true))]
    split
    · rfl
    · split <;> rfl
  · intro hm
    simp only [syncExtraArgs, hm, if_pos]
    constructor
    · intro hmem
      rcases List.mem_append.mp hmem with hf | ho
      · have := (List.mem_filter.mp hf).2
        simp at this
      · cases mcv : mc <;> rw [mcv] at ho <;> simp at ho
    · intro hmem
      rcases List.mem_append.mp hmem with hf | ho
      · have := (List.mem_filter.mp hf).2
        simp at this
      · cases mcv : mc <;> rw [mcv] at ho <;> simp at ho
  · intro hm
    simp [syncExtraArgs, if_neg hm]

/-- Witness for C10: with `-u --upgrades` forwarded, the AUR-only mode
strips both while `ModeAny` keeps them. -/
theorem sync_install_upgrade_args_witness :
    "u" ∉ syncExtraArgs ⟨TargetMode.aurOnly, false, false, false⟩
      ⟨["u", "upgrades", "needed"]⟩ false ∧
    syncExtraArgs cfgAny ⟨["u", "upgrades", "needed"]⟩ false =
      ["u", "upgrades", "needed"] ++ ["--noconfirm"] := by
  constructor
  · exact ((sync_install_upgrade_args ⟨TargetMode.aurOnly, false, false, false⟩
      baseEnv ⟨["u", "upgrades", "needed"]⟩ false [("linux", linuxInfo)]
      (by decide)).2.1 rfl).1
  · exact ((sync_install_upgrade_args cfgAny baseEnv
      ⟨["u", "upgrades", "needed"]⟩ false [("linux", linuxInfo)]
      (by decide)).2.2 (by decide))

/-! ## Claim C6: post-install hooks -/

theorem multiOf_eq_none (es : List Err) : multiOf es = none ↔ es = [] := by
  cases es <;> simp [multiOf]

/-- **C6.** When `Install` returns without a fatal error (in particular
whatever per-layer build failures were recorded), the operation service
runs every registered post-install hook exactly once, in registration
order; a hook's error neither prevents later hooks from running nor is
dropped — the aggregated result is non-nil as soon as one hook errs, and
is built from exactly the hooks' collected errors. -/
theorem post_install_hooks_run_in_order (cfg : Config) (env : Env)
    (args : Args) (targets : List Layer) (dirs : List (String × String))
    (ex : List String) (mc : Bool) (hooks : List Hook)
    (hI : (Install cfg env args targets dirs ex mc).2 = none) :
    (operationRun cfg env args targets dirs ex mc hooks).hooksRan =
      hooks.map (fun h => h.1) ∧
    (RunPostInstallHooks hooks).1 = hooks.map (fun h => h.1) ∧
    (RunPostInstallHooks hooks).2 =
      multiOf (hooks.filterMap (fun h => h.2)) ∧
    ((RunPostInstallHooks hooks).2 = none ↔ ∀ h ∈ hooks, h.2 = none) ∧
    (∀ h ∈ hooks, h.2 ≠ none →
      (operationRun cfg env args targets dirs ex mc hooks).err ≠ none) := by
  have hrfl : (RunPostInstallHooks hooks).2 =
      multiOf (hooks.filterMap (fun h => h.2)) := rfl
  have hrun : operationRun cfg env args targets dirs ex mc hooks =
      ⟨(Install cfg env args targets dirs ex mc).1.trace,
        (RunPostInstallHooks hooks).1,
        multiOf (([(CompileFailedAndIgnored
            (Install cfg env args targets dirs ex mc).1).2,
          (RunPostInstallHooks hooks).2]).filterMap id)⟩ := by
    simp only [operationRun, hI]
  refine ⟨?_, rfl, hrfl, ?_, ?_⟩
  · have hc := congrArg OpResult.hooksRan hrun
    simpa [RunPostInstallHooks] using hc
  · rw [hrfl, multiOf_eq_none, List.filterMap_eq_nil_iff]
  · intro h hmem hne habs
    have habs' : multiOf (([(CompileFailedAndIgnored
          (Install cfg env args targets dirs ex mc).1).2,
        (RunPostInstallHooks hooks).2]).filterMap id) = none := by
      have hc := congrArg OpResult.err hrun
      rw [habs] at hc
      exact hc.symm
    rw [multiOf_eq_none] at habs'
    have hH : (RunPostInstallHooks hooks).2 = none := by
      rcases hhv : (RunPostInstallHooks hooks).2 with _ | e
      · rfl
      · rw [hhv] at habs'
        rcases hcv : (CompileFailedAndIgnored
            (Install cfg env args targets dirs ex mc).1).2 with _ | e2 <;>
          rw [hcv] at habs' <;> simp at habs'
    rw [hrfl, multiOf_eq_none] at hH
    exact hne (List.filterMap_eq_nil_iff.mp hH h hmem)

def demoHooks : List Hook :=
  [("clean", none), ("dirs", some (Err.hook "dirs"))]

/-- Witness for C6: with no targets (`Install` trivially succeeds) and two
hooks of which the second errs, both hooks run in order and the
operation's final error is non-nil. -/
theorem post_install_hooks_run_in_order_witness :
    (operationRun cfgAny baseEnv ⟨[]⟩ [] [] [] false demoHooks).hooksRan =
      demoHooks.map (fun h => h.1) ∧
    (operationRun cfgAny baseEnv ⟨[]⟩ [] [] [] false demoHooks).err ≠
      none := by
  have h := post_install_hooks_run_in_order cfgAny baseEnv ⟨[]⟩ [] [] []
    false demoHooks rfl
  refine ⟨h.1, h.2.2.2.2 ("dirs", some (Err.hook "dirs")) ?_ ?_⟩
  · simp [demoHooks]
  · simp

end Yippee
